import Mathlib

/-!
Verification development for the Archivas SDK cryptographic core.

The TypeScript source is shallowly embedded: byte buffers (`Uint8Array`)
become `List Nat` (each entry a byte value), JavaScript strings become
`String`, fallible functions (those that `throw`) return `Except String _`,
and JavaScript 32-bit integer arithmetic is carried out on `Nat` with
explicit reductions modulo `2 ^ 32` where overflow matters.
-/

namespace Archivas

/-- Byte sequences: each entry is intended to be `< 256`. -/
abbrev Bytes := List Nat

/-! ## UTF-8 (the `TextEncoder` used throughout the SDK) -/

/-- Standard UTF-8 encoding of one Unicode scalar value (what
`TextEncoder.encode` produces per character). -/
def utf8Char (c : Char) : Bytes :=
  let n := c.toNat
  if n < 0x80 then [n]
  else if n < 0x800 then [0xC0 ||| (n >>> 6), 0x80 ||| (n &&& 0x3F)]
  else if n < 0x10000 then
    [0xE0 ||| (n >>> 12), 0x80 ||| ((n >>> 6) &&& 0x3F), 0x80 ||| (n &&& 0x3F)]
  else
    [0xF0 ||| (n >>> 18), 0x80 ||| ((n >>> 12) &&& 0x3F),
     0x80 ||| ((n >>> 6) &&& 0x3F), 0x80 ||| (n &&& 0x3F)]

/-- UTF-8 bytes of a string (`new TextEncoder().encode(s)`). -/
def utf8 (s : String) : Bytes := s.data.flatMap utf8Char

/-- `new TextEncoder().encode(s).length`. -/
def utf8Len (s : String) : Nat := (utf8 s).length

/-! ## Transaction body (src/types.ts `TxBody`)

`type` is the fixed literal `"transfer"`, so it is not a field of the
structure; the canonical serializer emits it explicitly. -/

structure TxBody where
  fromAddr : String
  toAddr : String
  amount : String
  fee : String
  nonce : String
  memo : Option String
deriving DecidableEq, Repr

/-- The fields of a `TxBody` object in insertion order, paired with their
(optional) values.  A `TxBody` built by the SDK carries the `memo` key only
when a memo is present. -/
def txFields (t : TxBody) : List (String × Option String) :=
  [("type", some "transfer"), ("from", some t.fromAddr), ("to", some t.toAddr),
   ("amount", some t.amount), ("fee", some t.fee), ("nonce", some t.nonce),
   ("memo", t.memo)]

/-- `Object.keys(tx)`: the keys actually present on the object. -/
def txKeys (t : TxBody) : List String :=
  (txFields t).filterMap fun kv => kv.2.map fun _ => kv.1

/-- The value stored under a key (`tx[key]`). -/
def txGet (t : TxBody) (k : String) : Option String :=
  (((txFields t).lookup k).getD none)

/-- Insertion into a ≤-sorted list of strings (used to model
`Array.prototype.sort()`, which sorts keys lexicographically). -/
def insertSorted (s : String) : List String → List String
  | [] => [s]
  | t :: rest => if s ≤ t then s :: t :: rest else t :: insertSorted s rest

/-- `keys.sort()`: lexicographic string sort. -/
def sortStrings (l : List String) : List String := l.foldr insertSorted []

/-! ## RFC 8785 canonical JSON (src/crypto/canonical.ts) -/

/-- One hexadecimal digit character, lowercase (as produced by
`JSON.stringify` in `\u00xx` escapes and by `Number.prototype.toString(16)`). -/
def hexDigit (n : Nat) : Char := "0123456789abcdef".data.getD n 'f'

/-- `JSON.stringify` escaping of a single character inside a string
literal: `"` and `\` get a backslash, the named control escapes are used
for 0x08/0x09/0x0A/0x0C/0x0D, the remaining control characters become
`\u00xx`, and every other character is emitted unchanged. -/
def jsonEscapeChar (c : Char) : List Char :=
  if c = '"' then ['\\', '"']
  else if c = '\\' then ['\\', '\\']
  else if c.toNat = 0x08 then ['\\', 'b']
  else if c.toNat = 0x09 then ['\\', 't']
  else if c.toNat = 0x0A then ['\\', 'n']
  else if c.toNat = 0x0C then ['\\', 'f']
  else if c.toNat = 0x0D then ['\\', 'r']
  else if c.toNat < 0x20 then
    ['\\', 'u', '0', '0', hexDigit (c.toNat / 16), hexDigit (c.toNat % 16)]
  else [c]

/-- Body of a JSON string literal for `s`. -/
def jsonEscape (s : String) : String := String.mk (s.data.flatMap jsonEscapeChar)

/-- JSON string literal for `s` (quotes included). -/
def jsonStrLit (s : String) : String := "\"" ++ jsonEscape s ++ "\""

/-- `"key":"value"` member text of the serialized object. -/
def jsonMember (kv : String × String) : List Char :=
  (jsonStrLit kv.1).data ++ ':' :: (jsonStrLit kv.2).data

/-- Comma-join, as `JSON.stringify` separates object members. -/
def joinComma : List (List Char) → List Char
  | [] => []
  | [x] => x
  | x :: y :: rest => x ++ ',' :: joinComma (y :: rest)

/-- The serialized object text (the `JSON.stringify` output): sorted
keys, `undefined`/`null` values dropped, no whitespace. -/
def canonicalChars (t : TxBody) : List Char :=
  let keys := sortStrings (txKeys t)
  let members := keys.filterMap fun k => (txGet t k).map fun v => jsonMember (k, v)
  Char.ofNat 123 :: joinComma members ++ [Char.ofNat 125]

/-- `canonicalJSON` (src/crypto/canonical.ts): sort the object keys
alphabetically, drop `undefined`/`null` values, serialize with
`JSON.stringify` (no whitespace), and UTF-8-encode the result. -/
def canonicalJSON (t : TxBody) : Bytes :=
  (canonicalChars t).flatMap utf8Char

/-- `estimateTxSize` (src/crypto/canonical.ts). -/
def estimateTxSize (t : TxBody) : Nat := (canonicalJSON t).length

/-! ## Transfer building (src/wallet/tx.ts `Tx.buildTransfer`) -/

/-- `ARCHIVAS_CONSTANTS.MAX_MEMO_LENGTH`. -/
def MAX_MEMO_LENGTH : Nat := 256

/-- Parameters of `Tx.buildTransfer`. -/
structure TransferParams where
  fromAddr : String
  toAddr : String
  amount : String
  fee : String
  nonce : String
  memo : Option String
deriving DecidableEq, Repr

/-- JavaScript truthiness of the optional `params.memo` (absent and the
empty string are both falsy). -/
def memoTruthy : Option String → Bool
  | none => false
  | some m => !(m == "")

/-- `Tx.buildTransfer`: validates the memo byte length, then assembles the
body; the `memo` key is set only when `params.memo` is truthy. -/
def buildTransfer (p : TransferParams) : Except String TxBody :=
  if memoTruthy p.memo && decide (utf8Len (p.memo.getD "") > MAX_MEMO_LENGTH) then
    .error "Memo exceeds maximum length of 256 bytes"
  else
    .ok { fromAddr := p.fromAddr, toAddr := p.toAddr, amount := p.amount,
          fee := p.fee, nonce := p.nonce,
          memo := if memoTruthy p.memo then p.memo else none }

/-! ## Hex encoding (src/crypto/hash.ts) -/

/-- `bytesToHex`: each byte becomes two lowercase hex digits
(`b.toString(16).padStart(2, "0")`; `Uint8Array` entries are `< 256`). -/
def bytesToHex (bs : Bytes) : String :=
  String.mk (bs.flatMap fun b => [hexDigit (b / 16 % 16), hexDigit (b % 16)])

/-- Value of a hex digit character (upper or lower case). -/
def hexCharVal (c : Char) : Option Nat :=
  if c = '0' then some 0 else if c = '1' then some 1 else if c = '2' then some 2
  else if c = '3' then some 3 else if c = '4' then some 4 else if c = '5' then some 5
  else if c = '6' then some 6 else if c = '7' then some 7 else if c = '8' then some 8
  else if c = '9' then some 9 else if c = 'a' ∨ c = 'A' then some 10
  else if c = 'b' ∨ c = 'B' then some 11 else if c = 'c' ∨ c = 'C' then some 12
  else if c = 'd' ∨ c = 'D' then some 13 else if c = 'e' ∨ c = 'E' then some 14
  else if c = 'f' ∨ c = 'F' then some 15 else none

/-- `parseInt(two-character string, 16)` followed by a `Uint8Array` store:
`parseInt` reads the longest valid digit run; `NaN` stores as `0`. -/
def hexPairVal (c1 c2 : Char) : Nat :=
  match hexCharVal c1, hexCharVal c2 with
  | some a, some b => 16 * a + b
  | some a, none => a
  | none, _ => 0

/-- The byte-assembly loop of `hexToBytes` (even-length input). -/
def hexPairs : List Char → Bytes
  | c1 :: c2 :: rest => hexPairVal c1 c2 :: hexPairs rest
  | _ => []

/-- `hexToBytes` (src/crypto/hash.ts): strips an optional `0x`, rejects
odd-length input, and parses hex pairs. -/
def hexToBytes (hex : String) : Except String Bytes :=
  let clean := if hex.data.take 2 = ['0', 'x'] then hex.data.drop 2 else hex.data
  if clean.length % 2 ≠ 0 then .error "Invalid hex string length"
  else .ok (hexPairs clean)

/-! ## Base64 (helpers at the bottom of src/wallet/tx.ts) -/

/-- The base64 alphabet character for a 6-bit value. -/
def b64Chr (n : Nat) : Char :=
  "ABCDEFGHIJKLMNOPQRSTUVWXYZabcdefghijklmnopqrstuvwxyz0123456789+/".data.getD n 'A'

/-- 6-bit value of a base64 alphabet character (`=` and anything else map
to `none`, which the forgiving decoder skips). -/
def b64Val (c : Char) : Option Nat :=
  "ABCDEFGHIJKLMNOPQRSTUVWXYZabcdefghijklmnopqrstuvwxyz0123456789+/".data.indexOf? c

/-- 3-byte-to-4-character base64 grouping with `=` padding
(`Buffer.from(bytes).toString("base64")`). -/
def b64Go : Bytes → List Char
  | [] => []
  | [b0] => [b64Chr (b0 >>> 2), b64Chr ((b0 &&& 3) <<< 4), '=', '=']
  | [b0, b1] => [b64Chr (b0 >>> 2), b64Chr (((b0 &&& 3) <<< 4) ||| (b1 >>> 4)),
                 b64Chr ((b1 &&& 15) <<< 2), '=']
  | b0 :: b1 :: b2 :: rest =>
    b64Chr (b0 >>> 2) :: b64Chr (((b0 &&& 3) <<< 4) ||| (b1 >>> 4)) ::
    b64Chr (((b1 &&& 15) <<< 2) ||| (b2 >>> 6)) :: b64Chr (b2 &&& 63) :: b64Go rest

/-- `bytesToBase64` (src/wallet/tx.ts). -/
def bytesToBase64 (bs : Bytes) : String := String.mk (b64Go bs)

/-- 4-value-to-3-byte base64 regrouping; a 2- or 3-value remainder yields
1 or 2 bytes, a 0/1-value remainder yields nothing. -/
def b64Pack : List Nat → Bytes
  | v0 :: v1 :: v2 :: v3 :: rest =>
    ((v0 <<< 2) ||| (v1 >>> 4)) :: (((v1 &&& 15) <<< 4) ||| (v2 >>> 2)) ::
    (((v2 &&& 3) <<< 6) ||| v3) :: b64Pack rest
  | [v0, v1] => [(v0 <<< 2) ||| (v1 >>> 4)]
  | [v0, v1, v2] => [(v0 <<< 2) ||| (v1 >>> 4), ((v1 &&& 15) <<< 4) ||| (v2 >>> 2)]
  | _ => []

/-- `base64ToBytes` (src/wallet/tx.ts), the forgiving
`Buffer.from(s, "base64")` decode: non-alphabet characters are skipped. -/
def base64ToBytes (s : String) : Bytes := b64Pack (s.data.filterMap b64Val)

/-! ## Blake2b (the `@noble/hashes` `blake2b` used by the SDK, RFC 7693) -/

/-- Little-endian value of a byte list. -/
def leNum : Bytes → Nat
  | [] => 0
  | b :: rest => b + 256 * leNum rest

/-- `len` little-endian bytes of `n`. -/
def toLE (len n : Nat) : Bytes := (List.range len).map fun i => (n >>> (8 * i)) % 256

/-- Blake2b initialization vector. -/
def blakeIV : List Nat :=
  [0x6a09e667f3bcc908, 0xbb67ae8584caa73b, 0x3c6ef372fe94f82b, 0xa54ff53a5f1d36f1,
   0x510e527fade682d1, 0x9b05688c2b3e6c1f, 0x1f83d9abfb41bd6b, 0x5be0cd19137e2179]

/-- Blake2b message schedule permutations. -/
def blakeSigma : List (List Nat) :=
  [[0, 1, 2, 3, 4, 5, 6, 7, 8, 9, 10, 11, 12, 13, 14, 15],
   [14, 10, 4, 8, 9, 15, 13, 6, 1, 12, 0, 2, 11, 7, 5, 3],
   [11, 8, 12, 0, 5, 2, 15, 13, 10, 14, 3, 6, 7, 1, 9, 4],
   [7, 9, 3, 1, 13, 12, 11, 14, 2, 6, 5, 10, 4, 0, 15, 8],
   [9, 0, 5, 7, 2, 4, 10, 15, 14, 1, 11, 12, 6, 8, 3, 13],
   [2, 12, 6, 10, 0, 11, 8, 3, 4, 13, 7, 5, 15, 14, 1, 9],
   [12, 5, 1, 15, 14, 13, 4, 10, 0, 7, 6, 3, 9, 2, 8, 11],
   [13, 11, 7, 14, 12, 1, 3, 9, 5, 0, 15, 4, 8, 6, 2, 10],
   [6, 15, 14, 9, 11, 3, 0, 8, 12, 2, 13, 7, 1, 4, 10, 5],
   [10, 2, 8, 4, 7, 6, 1, 5, 15, 11, 9, 14, 3, 12, 13, 0]]

/-- 64-bit rotate right. -/
def rotr64 (x n : Nat) : Nat := ((x >>> n) ||| (x <<< (64 - n))) % 2 ^ 64

/-- The Blake2b `G` mixing function on the 16-word work vector. -/
def blakeG (v : List Nat) (a b c d x y : Nat) : List Nat :=
  let va := (v.getD a 0 + v.getD b 0 + x) % 2 ^ 64
  let vd := rotr64 (v.getD d 0 ^^^ va) 32
  let vc := (v.getD c 0 + vd) % 2 ^ 64
  let vb := rotr64 (v.getD b 0 ^^^ vc) 24
  let va2 := (va + vb + y) % 2 ^ 64
  let vd2 := rotr64 (vd ^^^ va2) 16
  let vc2 := (vc + vd2) % 2 ^ 64
  let vb2 := rotr64 (vb ^^^ vc2) 63
  (((v.set a va2).set b vb2).set c vc2).set d vd2

/-- One Blake2b round. -/
def blakeRound (m v : List Nat) (r : Nat) : List Nat :=
  let s := blakeSigma.getD (r % 10) []
  let mi := fun i => m.getD (s.getD i 0) 0
  let v := blakeG v 0 4 8 12 (mi 0) (mi 1)
  let v := blakeG v 1 5 9 13 (mi 2) (mi 3)
  let v := blakeG v 2 6 10 14 (mi 4) (mi 5)
  let v := blakeG v 3 7 11 15 (mi 6) (mi 7)
  let v := blakeG v 0 5 10 15 (mi 8) (mi 9)
  let v := blakeG v 1 6 11 12 (mi 10) (mi 11)
  let v := blakeG v 2 7 8 13 (mi 12) (mi 13)
  blakeG v 3 4 9 14 (mi 14) (mi 15)

/-- Blake2b compression function `F`. -/
def blakeCompress (h : List Nat) (block : Bytes) (t : Nat) (last : Bool) : List Nat :=
  let m := (List.range 16).map fun i => leNum ((block.drop (8 * i)).take 8)
  let v0 := h ++ blakeIV
  let v1 := v0.set 12 (v0.getD 12 0 ^^^ t % 2 ^ 64)
  let v2 := v1.set 13 (v1.getD 13 0 ^^^ t / 2 ^ 64)
  let v3 := if last then v2.set 14 (v2.getD 14 0 ^^^ (2 ^ 64 - 1)) else v2
  let v := (List.range 12).foldl (blakeRound m) v3
  (List.range 8).map fun i => h.getD i 0 ^^^ v.getD i 0 ^^^ v.getD (i + 8) 0

/-- Split into `sz`-byte chunks, the last chunk being the (possibly empty,
possibly full) remainder; `fuel` bounds the recursion and is instantiated
with the data length. -/
def chunksGo (sz : Nat) : Nat → Bytes → List Bytes
  | 0, data => [data]
  | fuel + 1, data =>
    if data.length ≤ sz then [data] else data.take sz :: chunksGo sz fuel (data.drop sz)

/-- Sequential Blake2b block processing; `t` counts bytes already fed. -/
def blakeGo (h : List Nat) (t : Nat) : List Bytes → List Nat
  | [] => h
  | [lastBlock] =>
    blakeCompress h (lastBlock ++ List.replicate (128 - lastBlock.length) 0)
      (t + lastBlock.length) true
  | block :: rest => blakeGo (blakeCompress h block (t + 128) false) (t + 128) rest

/-- Unkeyed Blake2b with `dkLen`-byte output (`blake2b(data, { dkLen })`). -/
def blake2b (dkLen : Nat) (data : Bytes) : Bytes :=
  let h0 := blakeIV.set 0 (blakeIV.getD 0 0 ^^^ (0x01010000 ||| dkLen))
  let h := blakeGo h0 0 (chunksGo 128 data.length data)
  ((h.map (toLE 8)).flatten).take dkLen

/-! ## Transaction hashing (src/crypto/hash.ts `hashTx`) -/

/-- `ARCHIVAS_CONSTANTS.DOMAIN_SEPARATOR`. -/
def DOMAIN_SEPARATOR : String := "Archivas-TxV1"

/-- `hashTx`: blake2b-256 of the domain separator prepended to the
canonical bytes. -/
def hashTx (canonicalBytes : Bytes) : Bytes :=
  blake2b 32 (utf8 DOMAIN_SEPARATOR ++ canonicalBytes)

/-! ## SHA-512 and HMAC-SHA512 (the `@noble/hashes` functions used by
src/crypto/slip10.ts and, inside the signature scheme, by Ed25519) -/

/-- Big-endian value of a byte list. -/
def beNum (bs : Bytes) : Nat := bs.foldl (fun acc b => acc * 256 + b) 0

/-- `len` big-endian bytes of `n`. -/
def toBE (len n : Nat) : Bytes :=
  (List.range len).map fun i => (n >>> (8 * (len - 1 - i))) % 256

/-- SHA-512 round constants. -/
def sha512K : List Nat :=
  [4794697086780616226, 8158064640168781261, 13096744586834688815,
   16840607885511220156, 4131703408338449720, 6480981068601479193,
   10538285296894168987, 12329834152419229976, 15566598209576043074,
   1334009975649890238, 2608012711638119052, 6128411473006802146,
   8268148722764581231, 9286055187155687089, 11230858885718282805,
   13951009754708518548, 16472876342353939154, 17275323862435702243,
   1135362057144423861, 2597628984639134821, 3308224258029322869,
   5365058923640841347, 6679025012923562964, 8573033837759648693,
   10970295158949994411, 12119686244451234320, 12683024718118986047,
   13788192230050041572, 14330467153632333762, 15395433587784984357,
   489312712824947311, 1452737877330783856, 2861767655752347644,
   3322285676063803686, 5560940570517711597, 5996557281743188959,
   7280758554555802590, 8532644243296465576, 9350256976987008742,
   10552545826968843579, 11727347734174303076, 12113106623233404929,
   14000437183269869457, 14369950271660146224, 15101387698204529176,
   15463397548674623760, 17586052441742319658, 1182934255886127544,
   1847814050463011016, 2177327727835720531, 2830643537854262169,
   3796741975233480872, 4115178125766777443, 5681478168544905931,
   6601373596472566643, 7507060721942968483, 8399075790359081724,
   8693463985226723168, 9568029438360202098, 10144078919501101548,
   10430055236837252648, 11840083180663258601, 13761210420658862357,
   14299343276471374635, 14566680578165727644, 15097957966210449927,
   16922976911328602910, 17689382322260857208, 500013540394364858,
   748580250866718886, 1242879168328830382, 1977374033974150939,
   2944078676154940804, 3659926193048069267, 4368137639120453308,
   4836135668995329356, 5532061633213252278, 6448918945643986474,
   6902733635092675308, 7801388544844847127]

/-- SHA-512 initial hash state (identical word values to `blakeIV`). -/
def sha512IV : List Nat :=
  [7640891576956012808, 13503953896175478587, 4354685564936845355,
   11912009170470909681, 5840696475078001361, 11170449401992604703,
   2270897969802886507, 6620516959819538809]

/-- SHA-512 message schedule: 80 words from one 128-byte block. -/
def sha512Schedule (block : Bytes) : List Nat :=
  let w16 := (List.range 16).map fun i => beNum ((block.drop (8 * i)).take 8)
  (List.range 64).foldl
    (fun w _ =>
      let n := w.length
      let s0 :=
        rotr64 (w.getD (n - 15) 0) 1 ^^^ rotr64 (w.getD (n - 15) 0) 8 ^^^
          (w.getD (n - 15) 0 >>> 7)
      let s1 :=
        rotr64 (w.getD (n - 2) 0) 19 ^^^ rotr64 (w.getD (n - 2) 0) 61 ^^^
          (w.getD (n - 2) 0 >>> 6)
      w ++ [(s1 + w.getD (n - 7) 0 + s0 + w.getD (n - 16) 0) % 2 ^ 64])
    w16

/-- SHA-512 compression of one block into the 8-word state. -/
def sha512Compress (h : List Nat) (block : Bytes) : List Nat :=
  let w := sha512Schedule block
  let st := (List.range 80).foldl
    (fun st t =>
      let a := st.getD 0 0; let b := st.getD 1 0; let c := st.getD 2 0
      let d := st.getD 3 0; let e := st.getD 4 0; let f := st.getD 5 0
      let g := st.getD 6 0; let hh := st.getD 7 0
      let S1 := rotr64 e 14 ^^^ rotr64 e 18 ^^^ rotr64 e 41
      let ch := (e &&& f) ^^^ ((e ^^^ (2 ^ 64 - 1)) &&& g)
      let T1 := (hh + S1 + ch + sha512K.getD t 0 + w.getD t 0) % 2 ^ 64
      let S0 := rotr64 a 28 ^^^ rotr64 a 34 ^^^ rotr64 a 39
      let maj := (a &&& b) ^^^ (a &&& c) ^^^ (b &&& c)
      let T2 := (S0 + maj) % 2 ^ 64
      [(T1 + T2) % 2 ^ 64, a, b, c, (d + T1) % 2 ^ 64, e, f, g])
    h
  (List.range 8).map fun i => (h.getD i 0 + st.getD i 0) % 2 ^ 64

/-- SHA-512 of a byte sequence. -/
def sha512 (data : Bytes) : Bytes :=
  let len := data.length
  let zeros := (128 - (len + 17) % 128) % 128
  let padded := data ++ 0x80 :: List.replicate zeros 0 ++ toBE 16 (8 * len)
  let blocks := chunksGo 128 padded.length padded
  let h := blocks.foldl sha512Compress sha512IV
  (h.map (toBE 8)).flatten

/-- HMAC-SHA512 (`hmac(sha512, key, message)`). -/
def hmacSha512 (key msg : Bytes) : Bytes :=
  let k0 := if key.length > 128 then sha512 key else key
  let kPad := k0 ++ List.replicate (128 - k0.length) 0
  let inner := sha512 ((kPad.map (· ^^^ 0x36)) ++ msg)
  sha512 ((kPad.map (· ^^^ 0x5c)) ++ inner)

/-! ## Ed25519 (the `@noble/curves` `ed25519` object used by
src/crypto/ed25519.ts, modelled per RFC 8032) -/

/-- The Ed25519 field prime `2^255 - 19`. -/
def edP : Nat := 2 ^ 255 - 19

/-- The Ed25519 group order `L`. -/
def edL : Nat := 2 ^ 252 + 27742317777372353535851937790883648493

/-- The twisted Edwards `d` constant. -/
def edD : Nat := 37095705934669439343138083508754565189542113879843219016388785533085940283555

/-- `sqrt(-1)` in the field, used by point decompression. -/
def edSqrtM1 : Nat :=
  19681161376707505956807079304988542015446066515923890162744021073123829784752

/-- Modular exponentiation by repeated squaring (`fuel` bounds the
recursion; it is instantiated above the exponent's bit length). -/
def powModGo : Nat → Nat → Nat → Nat → Nat
  | 0, _, _, _ => 1
  | fuel + 1, b, e, m =>
    if e = 0 then 1
    else
      let r := powModGo fuel (b * b % m) (e / 2) m
      if e % 2 = 1 then r * b % m else r

/-- `b ^ e mod m`. -/
def powMod (b e m : Nat) : Nat := powModGo 600 (b % m) e m

/-- Field addition, subtraction, multiplication modulo `edP`. -/
def fadd (a b : Nat) : Nat := (a + b) % edP

/-- Field subtraction (inputs reduced first, so the difference stays in
`Nat`). -/
def fsub (a b : Nat) : Nat := (a % edP + edP - b % edP) % edP

/-- Field multiplication. -/
def fmul (a b : Nat) : Nat := a * b % edP

/-- Extended (X : Y : Z : T) coordinates of a curve point. -/
structure EdPoint where
  x : Nat
  y : Nat
  z : Nat
  t : Nat
deriving DecidableEq, Repr

/-- The neutral element. -/
def edZero : EdPoint := ⟨0, 1, 1, 0⟩

/-- The Ed25519 base point. -/
def edG : EdPoint :=
  let gx := 15112221349535400772501151409588531511454012693041857206046113283949847762202
  let gy := 46316835694926478169428394003475163141307993866256225615783033603165251855960
  ⟨gx, gy, 1, fmul gx gy⟩

/-- Unified point addition ("add-2008-hwcd-3" for `a = -1`). -/
def edAdd (p q : EdPoint) : EdPoint :=
  let a := fmul (fsub p.y p.x) (fsub q.y q.x)
  let b := fmul (fadd p.y p.x) (fadd q.y q.x)
  let c := fmul (fmul p.t (fmul 2 edD)) q.t
  let d := fmul (fmul p.z 2) q.z
  let e := fsub b a
  let f := fsub d c
  let g := fadd d c
  let h := fadd b a
  ⟨fmul e f, fmul g h, fmul f g, fmul e h⟩

/-- Double-and-add scalar multiplication (`fuel` is instantiated above the
scalar's bit length). -/
def edMulGo : Nat → Nat → EdPoint → EdPoint → EdPoint
  | 0, _, _, acc => acc
  | fuel + 1, n, base, acc =>
    let acc := if n % 2 = 1 then edAdd acc base else acc
    edMulGo fuel (n / 2) (edAdd base base) acc

/-- `n · P`. -/
def edMul (n : Nat) (p : EdPoint) : EdPoint := edMulGo 260 n p edZero

/-- Compressed 32-byte encoding: little-endian `y` with the parity of `x`
in the top bit. -/
def edEncode (p : EdPoint) : Bytes :=
  let zinv := powMod p.z (edP - 2) edP
  let x := fmul p.x zinv
  let y := fmul p.y zinv
  toLE 32 (y + if x % 2 = 1 then 2 ^ 255 else 0)

/-- RFC 8032 clamping of the lower 32 digest bytes: clear the low 3 bits
of the first byte, clear the top bit and set bit 6 of the last byte. -/
def edClamp : Bytes → Bytes
  | [] => []
  | b0 :: rest =>
    match rest.getLast? with
    | none => [b0 &&& 248]
    | some bl => (b0 &&& 248) :: (rest.dropLast ++ [bl &&& 127 ||| 64])

/-- The secret scalar and prefix derived from a 32-byte seed. -/
def edScalarOf (seed : Bytes) : Nat := leNum (edClamp ((sha512 seed).take 32))

/-- `ed25519.getPublicKey(seed)`: clamp the digest half, multiply the base
point, compress. -/
def ed25519PubKey (seed : Bytes) : Bytes := edEncode (edMul (edScalarOf seed) edG)

/-- `ed25519.sign(message, seed)` per RFC 8032. -/
def ed25519Sign (message seed : Bytes) : Bytes :=
  let h := sha512 seed
  let a := leNum (edClamp (h.take 32))
  let pre := h.drop 32
  let r := leNum (sha512 (pre ++ message)) % edL
  let rBytes := edEncode (edMul r edG)
  let aBytes := edEncode (edMul a edG)
  let k := leNum (sha512 (rBytes ++ aBytes ++ message)) % edL
  let s := (r + k * a) % edL
  rBytes ++ toLE 32 s

/-- Point decompression; fails on a non-square or an inconsistent sign
bit, as the library's point deserialization does. -/
def edDecode (bs : Bytes) : Except String EdPoint :=
  let n := leNum bs
  let signBit := n >>> 255
  let y := n % 2 ^ 255
  if y ≥ edP then .error "invalid point encoding"
  else
    let y2 := fmul y y
    let u := fsub y2 1
    let v := fadd (fmul edD y2) 1
    let cand := fmul (fmul u (powMod v 3 edP)) (powMod (fmul u (powMod v 7 edP)) ((edP - 5) / 8) edP)
    let vx2 := fmul v (fmul cand cand)
    let x0 := if vx2 = u then some cand
      else if vx2 = fsub 0 u then some (fmul cand edSqrtM1)
      else none
    match x0 with
    | none => .error "invalid point: not on curve"
    | some x =>
      if x = 0 ∧ signBit = 1 then .error "invalid point: sign of zero"
      else
        let x := if x % 2 ≠ signBit then fsub 0 x else x
        .ok ⟨x, y, 1, fmul x y⟩

/-- `ed25519.verify(signature, message, publicKey)`: decode the points,
bound-check `S`, and compare `S·B` with `R + k·A` (RFC 8032). Decode
failures surface as errors, which the SDK wrapper turns into `false`. -/
def ed25519Verify (signature message publicKey : Bytes) : Except String Bool := do
  let a ← edDecode publicKey
  let rBytes := signature.take 32
  let r ← edDecode rBytes
  let s := leNum (signature.drop 32)
  if s ≥ edL then .ok false
  else
    let k := leNum (sha512 (rBytes ++ publicKey ++ message)) % edL
    .ok (edEncode (edMul s edG) = edEncode (edAdd r (edMul k a)))

/-! ## Synchronous Ed25519 wrappers (src/crypto/ed25519.ts) -/

/-- `getPublicKeySync`. -/
def getPublicKeySync (secretKey : Bytes) : Except String Bytes :=
  if secretKey.length ≠ 32 then .error "Secret key must be 32 bytes"
  else .ok (ed25519PubKey secretKey)

/-- `signSync`: accepts a 64-byte record (seed is its left half) or a bare
32-byte seed. -/
def signSync (message secretKey : Bytes) : Except String Bytes :=
  let seed := if secretKey.length = 64 then secretKey.take 32 else secretKey
  if seed.length ≠ 32 then .error "Secret key must be 32 or 64 bytes"
  else .ok (ed25519Sign message seed)

/-- `verifySync`: throws on wrong-length inputs, otherwise downgrades any
verification-internal failure to `false` (the `try`/`catch`). -/
def verifySync (signature message publicKey : Bytes) : Except String Bool :=
  if publicKey.length ≠ 32 then .error "Public key must be 32 bytes"
  else if signature.length ≠ 64 then .error "Signature must be 64 bytes"
  else
    .ok (match ed25519Verify signature message publicKey with
      | .ok b => b
      | .error _ => false)

/-! ## SLIP-0010 master key derivation (src/crypto/slip10.ts) -/

/-- The SLIP-0010 Ed25519 HMAC key. -/
def ED25519_CURVE : String := "ed25519 seed"

/-- An Ed25519 keypair: 32-byte public key, 64-byte secret key record. -/
structure KeyPair where
  publicKey : Bytes
  secretKey : Bytes
deriving DecidableEq, Repr

/-- `deriveKeyPair` (src/crypto/slip10.ts): HMAC-SHA512 expansion of the
64-byte seed keyed by `"ed25519 seed"`, left half as signing seed, public
key appended to form the 64-byte record. -/
def deriveKeyPair (seed : Bytes) : Except String KeyPair :=
  if seed.length ≠ 64 then .error "Seed must be 64 bytes"
  else do
    let masterKey := hmacSha512 (utf8 ED25519_CURVE) seed
    let IL := masterKey.take 32
    let publicKey ← getPublicKeySync IL
    .ok { publicKey := publicKey, secretKey := IL ++ publicKey }

/-! ## Transaction signing and serialization (src/wallet/tx.ts) -/

/-- The hex-string triple returned by the signing entry points. -/
structure SignTriple where
  sigHex : String
  pubHex : String
  hashHex : String
deriving DecidableEq, Repr

/-- The terminal wire record (`SignedTx`). -/
structure SignedTx where
  tx : TxBody
  pubkey : String
  sig : String
  hash : String
deriving DecidableEq, Repr

/-- `Tx.canonicalBytes`. -/
def txCanonicalBytes (t : TxBody) : Bytes := canonicalJSON t

/-- `Tx.hash`. -/
def txHash (t : TxBody) : Bytes := hashTx (txCanonicalBytes t)

/-- `Tx.sign` (synchronous): requires the 64-byte record, signs the
transaction hash, reports the embedded public key (`secretKey.slice(32, 64)`),
all hex-encoded. -/
def txSign (t : TxBody) (secretKey : Bytes) : Except String SignTriple :=
  if secretKey.length ≠ 64 then .error "Secret key must be 64 bytes"
  else do
    let h := txHash t
    let signature ← signSync h secretKey
    let publicKey := (secretKey.drop 32).take 32
    .ok ⟨bytesToHex signature, bytesToHex publicKey, bytesToHex h⟩

/-- `Tx.createSigned` (v1.3.0, the upstream signature-encoding fix):
re-decodes the hex strings and emits `pubkey`/`sig` as base64; `hash`
stays hex. -/
def txCreateSigned (t : TxBody) (secretKey : Bytes) : Except String SignedTx := do
  let r ← txSign t secretKey
  let sigBytes ← hexToBytes r.sigHex
  let pubBytes ← hexToBytes r.pubHex
  .ok { tx := t, pubkey := bytesToBase64 pubBytes, sig := bytesToBase64 sigBytes,
        hash := r.hashHex }

/-- `Tx.signWithRawKey`: 32-byte seeds are expanded to the 64-byte record
(`new Uint8Array(64)` with the seed at 0 and the public key at 32);
64-byte records are used as-is. -/
def txSignWithRawKey (t : TxBody) (privateKey : Bytes) : Except String SignTriple :=
  if privateKey.length = 32 then do
    let publicKey ← getPublicKeySync privateKey
    let secretKey := privateKey ++ publicKey
    let h := txHash t
    let signature ← signSync h secretKey
    .ok ⟨bytesToHex signature, bytesToHex publicKey, bytesToHex h⟩
  else if privateKey.length = 64 then do
    let secretKey := privateKey
    let publicKey := (privateKey.drop 32).take 32
    let h := txHash t
    let signature ← signSync h secretKey
    .ok ⟨bytesToHex signature, bytesToHex publicKey, bytesToHex h⟩
  else .error "Private key must be 32 bytes (seed) or 64 bytes (seed || pubkey)"

/-- `Tx.createSignedFromRawKey` (v1.3.0): base64 wire encoding over the
raw-key signer. -/
def txCreateSignedFromRawKey (t : TxBody) (privateKey : Bytes) : Except String SignedTx := do
  let r ← txSignWithRawKey t privateKey
  let sigBytes ← hexToBytes r.sigHex
  let pubBytes ← hexToBytes r.pubHex
  .ok { tx := t, pubkey := bytesToBase64 pubBytes, sig := bytesToBase64 sigBytes,
        hash := r.hashHex }

/-- `Tx.signWithHexKey`. -/
def txSignWithHexKey (t : TxBody) (hexPrivateKey : String) : Except String SignTriple := do
  let privateKey ← hexToBytes hexPrivateKey
  txSignWithRawKey t privateKey

/-! ## Bech32 (the `bech32` npm package used by src/crypto/bech32.ts) -/

/-- Bech32 data-character alphabet. -/
def bech32Charset : String := "qpzry9x8gf2tvdw0s3jn54khce6mua7l"

/-- Character for a 5-bit value. -/
def charsetChr (v : Nat) : Char := bech32Charset.data.getD v 'q'

/-- 5-bit value of a data character (`ALPHABET_MAP`). -/
def charsetVal (c : Char) : Option Nat := bech32Charset.data.indexOf? c

/-- One step of the bech32 checksum LFSR.  The source writes the generator
selection as `-((b >> i) & 1) & GENERATOR[i]`; on 1-bit values that is the
conditional below. -/
def polymodStep (pre : Nat) : Nat :=
  let b := pre >>> 25
  ((pre &&& 0x1ffffff) <<< 5)
    ^^^ (if b &&& 1 = 1 then 0x3b6a57b2 else 0)
    ^^^ (if (b >>> 1) &&& 1 = 1 then 0x26508e6d else 0)
    ^^^ (if (b >>> 2) &&& 1 = 1 then 0x1ea119fa else 0)
    ^^^ (if (b >>> 3) &&& 1 = 1 then 0x3d4233dd else 0)
    ^^^ (if (b >>> 4) &&& 1 = 1 then 0x2a1462b3 else 0)

/-- Folding checksum values into the state (`chk = polymodStep(chk) ^ v`). -/
def polymodFold (chk : Nat) (vs : List Nat) : Nat :=
  vs.foldl (fun c v => polymodStep c ^^^ v) chk

/-- `prefixChk`: checksum over the human-readable part (high bits, a
separator step, then low bits), rejecting characters outside 33..126. -/
def prefixChk (hrp : List Char) : Except String Nat := do
  let chk ← hrp.foldlM
    (fun chk c =>
      if c.toNat < 33 ∨ c.toNat > 126 then .error "Invalid prefix"
      else .ok (polymodStep chk ^^^ (c.toNat >>> 5)))
    1
  let chk := polymodStep chk
  .ok (hrp.foldl (fun chk c => polymodStep chk ^^^ (c.toNat &&& 31)) chk)

/-- ASCII lowercasing (`String.prototype.toLowerCase` on the ASCII range
these strings live in). -/
def lowerChar (c : Char) : Char :=
  if 'A' ≤ c ∧ c ≤ 'Z' then Char.ofNat (c.toNat + 32) else c

/-- ASCII uppercasing. -/
def upperChar (c : Char) : Char :=
  if 'a' ≤ c ∧ c ≤ 'z' then Char.ofNat (c.toNat - 32) else c

/-- `String.prototype.lastIndexOf("1")`. -/
def lastIndexOf1 : List Char → Option Nat
  | [] => none
  | c :: rest =>
    match lastIndexOf1 rest with
    | some i => some (i + 1)
    | none => if c = '1' then some 0 else none

/-- `bech32.encode` with the default 90-character limit. -/
def bech32Encode (hrp : List Char) (words : List Nat) : Except String String :=
  if hrp.length + 7 + words.length > 90 then .error "Exceeds length limit"
  else do
    let hrp := hrp.map lowerChar
    let chk0 ← prefixChk hrp
    let chk1 ← words.foldlM
      (fun chk w =>
        if w >>> 5 ≠ 0 then .error "Non 5-bit word"
        else .ok (polymodStep chk ^^^ w))
      chk0
    let chk := polymodFold chk1 (List.replicate 6 0) ^^^ 1
    let cs := (List.range 6).map fun i => (chk >>> ((5 - i) * 5)) &&& 31
    .ok (String.mk (hrp ++ '1' :: words.map charsetChr ++ cs.map charsetChr))

/-- `bech32.decode` with the default 90-character limit: length window,
mixed-case rejection, split at the last separator, per-character value
lookup, checksum validation, and removal of the 6 checksum words. -/
def bech32Decode (str : String) : Except String (List Char × List Nat) :=
  let cs := str.data
  if cs.length < 8 then .error "too short"
  else if cs.length > 90 then .error "Exceeds length limit"
  else
    let lowered := cs.map lowerChar
    let upped := cs.map upperChar
    if cs ≠ lowered ∧ cs ≠ upped then .error "Mixed-case string"
    else
      let s := lowered
      match lastIndexOf1 s with
      | none => .error "No separator character"
      | some split =>
        if split = 0 then .error "Missing prefix"
        else
          let hrp := s.take split
          let wordChars := s.drop (split + 1)
          if wordChars.length < 6 then .error "Data too short"
          else do
            let chk0 ← prefixChk hrp
            let vals ← wordChars.mapM fun c =>
              match charsetVal c with
              | none => .error "Unknown character"
              | some v => (.ok v : Except String Nat)
            if polymodFold chk0 vals ≠ 1 then .error "Invalid checksum"
            else .ok (hrp, vals.take (vals.length - 6))

/-- The emit-while-enough-bits inner loop of the bech32 `convert`
routine; `fuel` is instantiated with `bits`, which bounds the number of
iterations since each one removes `outBits ≥ 1` bits. -/
def drain (outBits value : Nat) : Nat → Nat → List Nat × Nat
  | 0, bits => ([], bits)
  | fuel + 1, bits =>
    if bits ≥ outBits then
      let b2 := bits - outBits
      let w := (value >>> b2) &&& ((1 <<< outBits) - 1)
      let (ws, bf) := drain outBits value fuel b2
      (w :: ws, bf)
    else ([], bits)

/-- The per-input-value accumulation loop of `convert`.  JavaScript `<<`
wraps to 32 bits, hence the reduction modulo `2 ^ 32`; only the low
`bits + outBits ≤ 17` bits of the accumulator are ever read. -/
def convertCore (inBits outBits : Nat) : List Nat → Nat → Nat → List Nat × Nat × Nat
  | [], value, bits => ([], value, bits)
  | d :: rest, value, bits =>
    let value2 := ((value <<< inBits) ||| d) % 2 ^ 32
    let bits2 := bits + inBits
    let (ws, bits3) := drain outBits value2 bits2 bits2
    let (wsr, vf, bf) := convertCore inBits outBits rest value2 bits3
    (ws ++ wsr, vf, bf)

/-- The bech32 package's bit-group `convert`: with `pad` it flushes the
remaining bits, without it the padding must be empty and zero. -/
def convert (data : List Nat) (inBits outBits : Nat) (pad : Bool) : Except String (List Nat) :=
  let (ws, value, bits) := convertCore inBits outBits data 0 0
  if pad then
    if bits > 0 then .ok (ws ++ [(value <<< (outBits - bits)) &&& ((1 <<< outBits) - 1)])
    else .ok ws
  else if bits ≥ inBits then .error "Excess padding"
  else if (value <<< (outBits - bits)) &&& ((1 <<< outBits) - 1) ≠ 0 then
    .error "Non-zero padding"
  else .ok ws

/-- `bech32.toWords`. -/
def toWords (bytes : Bytes) : Except String (List Nat) := convert bytes 8 5 true

/-- `bech32.fromWords`. -/
def fromWords (words : List Nat) : Except String Bytes := convert words 5 8 false

/-- The accumulator value threaded through a run of `convertCore` (proof
device: names the nested accumulator expression). -/
def accJs (inBits : Nat) : Nat → List Nat → Nat
  | v, [] => v
  | v, d :: rest => accJs inBits (((v <<< inBits) ||| d) % 2 ^ 32) rest

/-! ## Archivas addresses (src/crypto/bech32.ts) -/

/-- `ADDRESS_HRP`. -/
def ADDRESS_HRP : List Char := ['a', 'r', 'c', 'v']

/-- `ADDRESS_DATA_LENGTH` (blake2b-160). -/
def ADDRESS_DATA_LENGTH : Nat := 20

/-- `pubKeyToAddress`: blake2b-160 of the 32-byte public key, bech32
encoded under the `arcv` prefix. -/
def pubKeyToAddress (publicKey : Bytes) : Except String String :=
  if publicKey.length ≠ 32 then .error "Public key must be 32 bytes"
  else do
    let hash := blake2b 20 publicKey
    let words ← toWords hash
    bech32Encode ADDRESS_HRP words

/-- `parseAddress`: bech32 decode, prefix check, 5-to-8-bit regroup,
payload length check. -/
def parseAddress (address : String) : Except String Bytes := do
  let (hrp, words) ← bech32Decode address
  if hrp ≠ ADDRESS_HRP then .error "Invalid address prefix"
  else do
    let data ← fromWords words
    if data.length ≠ ADDRESS_DATA_LENGTH then .error "Invalid address data length"
    else .ok data

/-- `isValidAddress`. -/
def isValidAddress (address : String) : Bool :=
  match parseAddress address with
  | .ok _ => true
  | .error _ => false

/-! ## Inverses used to establish injectivity of the canonical encoding
(proof devices: a UTF-8 decoder and a parser for the canonical JSON
shape, each the exact inverse of the serialization above) -/

/-- Decode one UTF-8-encoded scalar value (code point and remaining
bytes). -/
def utf8DecodeChar : Bytes → Option (Nat × Bytes)
  | [] => none
  | b0 :: rest =>
    if b0 < 0x80 then some (b0, rest)
    else if b0 < 0xC0 then none
    else if b0 < 0xE0 then
      match rest with
      | b1 :: rest2 => some ((b0 % 32) * 64 + b1 % 64, rest2)
      | [] => none
    else if b0 < 0xF0 then
      match rest with
      | b1 :: b2 :: rest2 => some (((b0 % 16) * 64 + b1 % 64) * 64 + b2 % 64, rest2)
      | _ => none
    else
      match rest with
      | b1 :: b2 :: b3 :: rest2 =>
        some ((((b0 % 8) * 64 + b1 % 64) * 64 + b2 % 64) * 64 + b3 % 64, rest2)
      | _ => none

/-- Decode a whole UTF-8 byte sequence into code points (`fuel` bounds the
recursion; one unit per decoded character suffices). -/
def utf8DecodeList : Nat → Bytes → Option (List Nat)
  | _, [] => some []
  | 0, _ :: _ => none
  | fuel + 1, bs =>
    match utf8DecodeChar bs with
    | none => none
    | some (cp, rest) => (utf8DecodeList fuel rest).map (cp :: ·)

/-- Inverse of the named `JSON.stringify` escapes. -/
def unescapeChar (c : Char) : Option Char :=
  if c = '"' then some '"'
  else if c = '\\' then some '\\'
  else if c = 'b' then some (Char.ofNat 8)
  else if c = 't' then some (Char.ofNat 9)
  else if c = 'n' then some (Char.ofNat 10)
  else if c = 'f' then some (Char.ofNat 12)
  else if c = 'r' then some (Char.ofNat 13)
  else none

/-- Parse the body of a JSON string literal up to its closing quote,
undoing `jsonEscapeChar`; returns the decoded characters and the input
after the quote. -/
def parseJStr : Nat → List Char → Option (List Char × List Char)
  | 0, _ => none
  | _ + 1, [] => none
  | fuel + 1, c :: rest =>
    if c = '"' then some ([], rest)
    else if c = '\\' then
      match rest with
      | 'u' :: h1 :: h2 :: h3 :: h4 :: rest2 =>
        match hexCharVal h1, hexCharVal h2, hexCharVal h3, hexCharVal h4 with
        | some a, some b, some c2, some d =>
          (parseJStr fuel rest2).map fun vr =>
            (Char.ofNat (((a * 16 + b) * 16 + c2) * 16 + d) :: vr.1, vr.2)
        | _, _, _, _ => none
      | e :: rest2 =>
        match unescapeChar e with
        | some ch => (parseJStr fuel rest2).map fun vr => (ch :: vr.1, vr.2)
        | none => none
      | [] => none
    else (parseJStr fuel rest).map fun vr => (c :: vr.1, vr.2)

/-- Expect the given literal characters at the head of the input. -/
def expectLit : List Char → List Char → Option (List Char)
  | [], rest => some rest
  | p :: pat, d :: rest => if d = p then expectLit pat rest else none
  | _ :: _, [] => none

/-- Parse the tail of the canonical object (from `nonce` on), closing
with the fixed `type` member and the end of input. -/
def parseTail (amount fee fromA : String) (memo : Option String) (r : List Char) :
    Option TxBody :=
  match expectLit (",\"nonce\":\"").data r with
  | none => none
  | some r1 =>
    match parseJStr r1.length r1 with
    | none => none
    | some (no, r2) =>
      match expectLit (",\"to\":\"").data r2 with
      | none => none
      | some r3 =>
        match parseJStr r3.length r3 with
        | none => none
        | some (toV, r4) =>
          match expectLit (",\"type\":\"transfer\"\x7d").data r4 with
          | none => none
          | some r5 =>
            if r5 = [] then
              some { fromAddr := fromA, toAddr := String.mk toV, amount := amount,
                     fee := fee, nonce := String.mk no, memo := memo }
            else none

/-- Parse the canonical JSON character stream back into a `TxBody`. -/
def parseTxChars (l : List Char) : Option TxBody :=
  match expectLit ("\x7b\"amount\":\"").data l with
  | none => none
  | some r0 =>
    match parseJStr r0.length r0 with
    | none => none
    | some (am, r1) =>
      match expectLit (",\"fee\":\"").data r1 with
      | none => none
      | some r2 =>
        match parseJStr r2.length r2 with
        | none => none
        | some (fe, r3) =>
          match expectLit (",\"from\":\"").data r3 with
          | none => none
          | some r4 =>
            match parseJStr r4.length r4 with
            | none => none
            | some (fr, r5) =>
              match expectLit (",\"memo\":\"").data r5 with
              | some rm =>
                match parseJStr rm.length rm with
                | none => none
                | some (me, r6) =>
                  parseTail (String.mk am) (String.mk fe) (String.mk fr)
                    (some (String.mk me)) r6
              | none => parseTail (String.mk am) (String.mk fe) (String.mk fr) none r5

/-- Recover a `TxBody` from its canonical bytes. -/
def recoverTx (bs : Bytes) : Option TxBody :=
  match utf8DecodeList bs.length bs with
  | none => none
  | some cps => parseTxChars (cps.map Char.ofNat)

/-! ## Shared helper lemmas -/

theorem lor_pow {b : Nat} (a k : Nat) (h : b < 2 ^ k) : a <<< k ||| b = a * 2 ^ k + b := by
  rw [Nat.shiftLeft_eq, Nat.mul_comm a, ← Nat.mul_add_lt_is_or h, Nat.mul_comm]

theorem toLE_length (len n : Nat) : (toLE len n).length = len := by
  simp [toLE]

theorem toBE_length (len n : Nat) : (toBE len n).length = len := by
  simp [toBE]

theorem toLE_lt (len n : Nat) : ∀ b ∈ toLE len n, b < 256 := by
  simp only [toLE, List.mem_map, List.mem_range]
  rintro b ⟨i, -, rfl⟩
  omega

theorem blakeCompress_length (h : List Nat) (block : Bytes) (t : Nat) (last : Bool) :
    (blakeCompress h block t last).length = 8 := by
  simp [blakeCompress]

theorem blakeGo_length (l : List Bytes) (hne : l ≠ []) (h : List Nat) (t : Nat) :
    (blakeGo h t l).length = 8 := by
  induction l generalizing h t with
  | nil => exact absurd rfl hne
  | cons b rest ih =>
    cases rest with
    | nil => simp [blakeGo, blakeCompress_length]
    | cons c rest2 => simpa [blakeGo] using ih (by simp) _ _

theorem chunksGo_ne_nil (sz fuel : Nat) (data : Bytes) : chunksGo sz fuel data ≠ [] := by
  cases fuel with
  | zero => simp [chunksGo]
  | succ n =>
    simp only [chunksGo]
    split <;> simp

theorem flatten_const_length (f : Nat → Bytes) (k : Nat) (hf : ∀ w, (f w).length = k) :
    ∀ l : List Nat, ((l.map f).flatten).length = l.length * k := by
  intro l
  induction l with
  | nil => simp
  | cons w rest ih => simp [ih, hf, Nat.add_mul]; omega

theorem blake2b_length (dk : Nat) (data : Bytes) (hdk : dk ≤ 64) :
    (blake2b dk data).length = dk := by
  have h8 := blakeGo_length (chunksGo 128 data.length data)
    (chunksGo_ne_nil 128 data.length data)
    (blakeIV.set 0 (blakeIV.getD 0 0 ^^^ (0x01010000 ||| dk))) 0
  simp only [blake2b, List.length_take]
  rw [flatten_const_length (toLE 8) 8 (toLE_length 8), h8]
  omega

theorem blake2b_lt (dk : Nat) (data : Bytes) : ∀ b ∈ blake2b dk data, b < 256 := by
  intro b hb
  simp only [blake2b] at hb
  have hb2 := List.mem_of_mem_take hb
  rw [List.mem_flatten] at hb2
  obtain ⟨l, hl, hbl⟩ := hb2
  rw [List.mem_map] at hl
  obtain ⟨w, -, rfl⟩ := hl
  exact toLE_lt 8 w b hbl

theorem sha512_state_length (blocks : List Bytes) (h : List Nat) (hh : h.length = 8) :
    (blocks.foldl sha512Compress h).length = 8 := by
  induction blocks generalizing h with
  | nil => simpa
  | cons b rest ih => exact ih _ (by simp [sha512Compress])

theorem flatten_constBE_length (k : Nat) (l : List Nat) :
    ((l.map (toBE k)).flatten).length = l.length * k := by
  induction l with
  | nil => simp
  | cons w rest ih => simp [ih, toBE_length, Nat.add_mul]; omega

theorem sha512_length (data : Bytes) : (sha512 data).length = 64 := by
  simp only [sha512]
  rw [flatten_constBE_length, sha512_state_length _ _ (by simp [sha512IV])]

theorem hmacSha512_length (key msg : Bytes) : (hmacSha512 key msg).length = 64 := by
  simp [hmacSha512, sha512_length]

theorem ed25519PubKey_length (seed : Bytes) : (ed25519PubKey seed).length = 32 := by
  simp [ed25519PubKey, edEncode, toLE_length]

theorem ed25519PubKey_lt (seed : Bytes) : ∀ b ∈ ed25519PubKey seed, b < 256 := by
  simp only [ed25519PubKey, edEncode]
  exact toLE_lt 32 _

theorem ed25519Sign_length (message seed : Bytes) : (ed25519Sign message seed).length = 64 := by
  simp [ed25519Sign, edEncode, toLE_length]

theorem ed25519Sign_lt (message seed : Bytes) : ∀ b ∈ ed25519Sign message seed, b < 256 := by
  simp only [ed25519Sign, edEncode]
  intro b hb
  rcases List.mem_append.1 hb with h | h
  · exact toLE_lt 32 _ b h
  · exact toLE_lt 32 _ b h

theorem except_bind_ok {α β : Type} (x : α) (f : α → Except String β) :
    (Except.ok x >>= f : Except String β) = f x := rfl

/-! ## Claim C2 -/

/-- C2: for every byte sequence `c`, `hashTx c` equals the 32-byte
blake2b-256 digest of the ASCII bytes of the domain tag `"Archivas-TxV1"`
followed by `c`; the result is exactly 32 bytes, and the function is pure
and deterministic (equal inputs give equal outputs). -/
theorem claim_C2 (c : Bytes) :
    hashTx c =
      blake2b 32
        ([0x41, 0x72, 0x63, 0x68, 0x69, 0x76, 0x61, 0x73, 0x2d, 0x54, 0x78, 0x56, 0x31] ++ c) ∧
    (hashTx c).length = 32 ∧
    ∀ c2 : Bytes, c = c2 → hashTx c = hashTx c2 := by
  refine ⟨rfl, ?_, ?_⟩
  · exact blake2b_length 32 _ (by omega)
  · rintro c2 rfl
    rfl

/-- Closed instance of `claim_C2`, discharging its inner hypothesis at a
concrete input. -/
theorem claim_C2_witness :
    hashTx [1, 2, 3] =
      blake2b 32
        ([0x41, 0x72, 0x63, 0x68, 0x69, 0x76, 0x61, 0x73, 0x2d, 0x54, 0x78, 0x56, 0x31] ++
          [1, 2, 3]) ∧
    (hashTx [1, 2, 3]).length = 32 ∧ hashTx [1, 2, 3] = hashTx [1, 2, 3] :=
  ⟨(claim_C2 [1, 2, 3]).1, (claim_C2 [1, 2, 3]).2.1, (claim_C2 [1, 2, 3]).2.2 [1, 2, 3] rfl⟩

/-! ## Claim C4 -/

/-- C4: `deriveKeyPair` succeeds on every 64-byte seed, returning a
64-byte `secretKey = IL ++ publicKey` where `IL` is the left half of the
HMAC-SHA512 expansion of the seed keyed by `"ed25519 seed"` and
`publicKey` is the Ed25519 public key of `IL` (so the public key equals
the one re-derived from the signing seed, and the call is deterministic);
any seed that is not 64 bytes long fails with the invalid-seed-length
error. -/
theorem claim_C4 (seed : Bytes) :
    (seed.length = 64 →
      ∃ kp : KeyPair,
        deriveKeyPair seed = .ok kp ∧
        kp.secretKey = (hmacSha512 (utf8 "ed25519 seed") seed).take 32 ++ kp.publicKey ∧
        kp.publicKey = ed25519PubKey ((hmacSha512 (utf8 "ed25519 seed") seed).take 32) ∧
        kp.secretKey.length = 64 ∧
        getPublicKeySync (kp.secretKey.take 32) = .ok kp.publicKey ∧
        deriveKeyPair seed = deriveKeyPair seed) ∧
    (seed.length ≠ 64 → deriveKeyPair seed = .error "Seed must be 64 bytes") := by
  constructor
  · intro h64
    set IL := (hmacSha512 (utf8 ED25519_CURVE) seed).take 32 with hILdef
    have hIL : IL.length = 32 := by
      simp [hILdef, hmacSha512_length]
    refine ⟨{ publicKey := ed25519PubKey IL, secretKey := IL ++ ed25519PubKey IL },
      ?_, rfl, rfl, ?_, ?_, rfl⟩
    · simp only [deriveKeyPair, h64, getPublicKeySync, hIL]
      rfl
    · simp [hIL, ed25519PubKey_length]
    · rw [List.take_left' hIL]
      simp [getPublicKeySync, hIL]
  · intro hne
    simp [deriveKeyPair, hne]

/-- Closed instance of `claim_C4` at a concrete 64-byte seed and a
concrete wrong-length seed. -/
theorem claim_C4_witness :
    (∃ kp : KeyPair,
      deriveKeyPair (List.replicate 64 7) = .ok kp ∧
      kp.secretKey =
        (hmacSha512 (utf8 "ed25519 seed") (List.replicate 64 7)).take 32 ++ kp.publicKey ∧
      kp.publicKey =
        ed25519PubKey ((hmacSha512 (utf8 "ed25519 seed") (List.replicate 64 7)).take 32) ∧
      kp.secretKey.length = 64 ∧
      getPublicKeySync (kp.secretKey.take 32) = .ok kp.publicKey ∧
      deriveKeyPair (List.replicate 64 7) = deriveKeyPair (List.replicate 64 7)) ∧
    deriveKeyPair [1, 2, 3] = .error "Seed must be 64 bytes" :=
  ⟨(claim_C4 (List.replicate 64 7)).1 (by simp),
   (claim_C4 [1, 2, 3]).2 (by simp)⟩

/-! ## Claim C6 -/

/-- C6: signing with a bare 32-byte seed produces exactly the same
`(sigHex, pubHex, hashHex)` triple as signing with the 64-byte record
`seed ++ publicKey` built from that seed (the payload of
`getPublicKeySync`); any key whose length is neither 32 nor 64 fails
with the invalid-key-length error. -/
theorem claim_C6 (t : TxBody) (s : Bytes) :
    (s.length = 32 → txSignWithRawKey t s = txSignWithRawKey t (s ++ ed25519PubKey s)) ∧
    (∀ key : Bytes, key.length ≠ 32 → key.length ≠ 64 →
      txSignWithRawKey t key =
        .error "Private key must be 32 bytes (seed) or 64 bytes (seed || pubkey)") := by
  constructor
  · intro h32
    have hpub : (ed25519PubKey s).length = 32 := ed25519PubKey_length s
    have happ : (s ++ ed25519PubKey s).length = 64 := by simp [h32, hpub]
    have htake : (s ++ ed25519PubKey s).take 32 = s := List.take_left' h32
    have hdrop : ((s ++ ed25519PubKey s).drop 32).take 32 = ed25519PubKey s := by
      rw [List.drop_left' h32]
      exact List.take_of_length_le (by simp [hpub])
    have lhs : txSignWithRawKey t s =
        .ok ⟨bytesToHex (ed25519Sign (txHash t) s), bytesToHex (ed25519PubKey s),
          bytesToHex (txHash t)⟩ := by
      simp [txSignWithRawKey, h32, getPublicKeySync, signSync, happ, htake, hpub,
        except_bind_ok]
    have rhs : txSignWithRawKey t (s ++ ed25519PubKey s) =
        .ok ⟨bytesToHex (ed25519Sign (txHash t) s), bytesToHex (ed25519PubKey s),
          bytesToHex (txHash t)⟩ := by
      have ht2 : List.take 32 (ed25519PubKey s) = ed25519PubKey s :=
        List.take_of_length_le (by simp [hpub])
      simp [txSignWithRawKey, h32, happ, getPublicKeySync, signSync, htake, hdrop, hpub,
        ht2, except_bind_ok]
    rw [lhs, rhs]
  · intro key hk32 hk64
    simp [txSignWithRawKey, hk32, hk64]

/-- Closed instance of `claim_C6` at a concrete 32-byte seed, a concrete
transaction, and a concrete wrong-length key. -/
theorem claim_C6_witness :
    (txSignWithRawKey
        { fromAddr := "a", toAddr := "b", amount := "1", fee := "1", nonce := "0", memo := none }
        (List.replicate 32 9) =
      txSignWithRawKey
        { fromAddr := "a", toAddr := "b", amount := "1", fee := "1", nonce := "0", memo := none }
        (List.replicate 32 9 ++ ed25519PubKey (List.replicate 32 9))) ∧
    txSignWithRawKey
        { fromAddr := "a", toAddr := "b", amount := "1", fee := "1", nonce := "0", memo := none }
        [1, 2, 3] =
      .error "Private key must be 32 bytes (seed) or 64 bytes (seed || pubkey)" :=
  ⟨(claim_C6 _ (List.replicate 32 9)).1 (by decide),
   (claim_C6 _ (List.replicate 32 9)).2 [1, 2, 3] (by decide) (by decide)⟩

/-! ## Claim C9 -/

/-- C9: `buildTransfer` raises the memo-too-long error exactly when the
(nonempty) memo exceeds 256 UTF-8 bytes: a memo of at most 256 bytes is
accepted and carried unchanged into the body, a longer one is rejected
with the error (before any canonicalization, and never truncated). -/
theorem claim_C9 (p : TransferParams) (m : String) (hm : p.memo = some m) (hne : m ≠ "") :
    (utf8Len m ≤ 256 →
      buildTransfer p =
        .ok { fromAddr := p.fromAddr, toAddr := p.toAddr, amount := p.amount,
              fee := p.fee, nonce := p.nonce, memo := some m }) ∧
    (utf8Len m > 256 →
      buildTransfer p = .error "Memo exceeds maximum length of 256 bytes") := by
  constructor
  · intro hle
    simp [buildTransfer, hm, memoTruthy, hne, MAX_MEMO_LENGTH, Nat.not_lt.2 hle]
  · intro hgt
    simp [buildTransfer, hm, memoTruthy, hne, MAX_MEMO_LENGTH, hgt]

set_option maxRecDepth 20000 in
/-- Closed instance of `claim_C9`: a 256-byte memo is accepted unmodified
and a 257-byte memo is rejected. -/
theorem claim_C9_witness :
    (buildTransfer
        { fromAddr := "a", toAddr := "b", amount := "1", fee := "1", nonce := "0",
          memo := some (String.mk (List.replicate 256 'x')) } =
      .ok { fromAddr := "a", toAddr := "b", amount := "1", fee := "1", nonce := "0",
            memo := some (String.mk (List.replicate 256 'x')) }) ∧
    buildTransfer
        { fromAddr := "a", toAddr := "b", amount := "1", fee := "1", nonce := "0",
          memo := some (String.mk (List.replicate 257 'x')) } =
      .error "Memo exceeds maximum length of 256 bytes" :=
  ⟨(claim_C9 _ _ rfl (by decide)).1 (by decide),
   (claim_C9 _ _ rfl (by decide)).2 (by decide)⟩

/-! ## Claim C10 -/

/-- C10: an empty-string memo behaves exactly like an absent memo:
`buildTransfer` returns a body with no memo field at all, identical to the
memo-omitted result, so the canonical bytes, transaction hash, and
signature agree. -/
theorem claim_C10 (p : TransferParams) :
    buildTransfer { p with memo := some "" } = buildTransfer { p with memo := none } ∧
    buildTransfer { p with memo := some "" } =
      .ok { fromAddr := p.fromAddr, toAddr := p.toAddr, amount := p.amount,
            fee := p.fee, nonce := p.nonce, memo := none } ∧
    ∀ t1 t2 : TxBody,
      buildTransfer { p with memo := some "" } = .ok t1 →
      buildTransfer { p with memo := none } = .ok t2 →
      canonicalJSON t1 = canonicalJSON t2 ∧ txHash t1 = txHash t2 ∧
        ∀ key, txSign t1 key = txSign t2 key := by
  refine ⟨?_, ?_, ?_⟩
  · simp [buildTransfer, memoTruthy]
  · simp [buildTransfer, memoTruthy]
  · intro t1 t2 h1 h2
    have he : buildTransfer { p with memo := some "" } = buildTransfer { p with memo := none } := by
      simp [buildTransfer, memoTruthy]
    rw [he, h2] at h1
    cases h1
    exact ⟨rfl, rfl, fun _ => rfl⟩

/-- Closed instance of `claim_C10` at concrete parameters. -/
theorem claim_C10_witness :
    (buildTransfer
        { fromAddr := "a", toAddr := "b", amount := "1", fee := "1", nonce := "0",
          memo := some "" } =
      buildTransfer
        { fromAddr := "a", toAddr := "b", amount := "1", fee := "1", nonce := "0",
          memo := none }) ∧
    canonicalJSON
        { fromAddr := "a", toAddr := "b", amount := "1", fee := "1", nonce := "0", memo := none } =
      canonicalJSON
        { fromAddr := "a", toAddr := "b", amount := "1", fee := "1", nonce := "0", memo := none } := by
  have h := claim_C10
    { fromAddr := "a", toAddr := "b", amount := "1", fee := "1", nonce := "0", memo := none }
  exact ⟨h.1, (h.2.2 _ _ h.2.1 (h.1.symm.trans h.2.1)).1⟩

/-! ## Claim C3 -/

/-- C3: `canonicalJSON t` is the UTF-8 encoding of the single flat JSON
object whose keys appear in the exact order `amount, fee, from,` (`memo`
only when present)`, nonce, to, type`, each value emitted as a JSON
string literal with no whitespace anywhere and the memo key omitted
entirely when absent; moreover a value containing no character that
JSON escaping touches appears verbatim inside its quotes. -/
theorem claim_C3 (t : TxBody) :
    canonicalJSON t =
      utf8
        (match t.memo with
        | none =>
          "\x7b\"amount\":" ++ jsonStrLit t.amount ++ ",\"fee\":" ++ jsonStrLit t.fee ++
            ",\"from\":" ++ jsonStrLit t.fromAddr ++ ",\"nonce\":" ++ jsonStrLit t.nonce ++
            ",\"to\":" ++ jsonStrLit t.toAddr ++ ",\"type\":\"transfer\"\x7d"
        | some m =>
          "\x7b\"amount\":" ++ jsonStrLit t.amount ++ ",\"fee\":" ++ jsonStrLit t.fee ++
            ",\"from\":" ++ jsonStrLit t.fromAddr ++ ",\"memo\":" ++ jsonStrLit m ++
            ",\"nonce\":" ++ jsonStrLit t.nonce ++ ",\"to\":" ++ jsonStrLit t.toAddr ++
            ",\"type\":\"transfer\"\x7d") ∧
    ∀ s : String, (∀ c ∈ s.data, jsonEscapeChar c = [c]) → jsonStrLit s = "\"" ++ s ++ "\"" := by
  constructor
  · cases hm : t.memo with
    | none =>
      simp +decide [canonicalJSON, canonicalChars, txKeys, txFields, hm, sortStrings,
        insertSorted, txGet, utf8, jsonMember, joinComma, jsonStrLit, jsonEscape, jsonEscapeChar]
    | some m =>
      simp +decide [canonicalJSON, canonicalChars, txKeys, txFields, hm, sortStrings,
        insertSorted, txGet, utf8, jsonMember, joinComma, jsonStrLit, jsonEscape, jsonEscapeChar]
  · intro s hs
    have aux : ∀ l : List Char, (∀ c ∈ l, jsonEscapeChar c = [c]) →
        l.flatMap jsonEscapeChar = l := by
      intro l
      induction l with
      | nil => intro _; rfl
      | cons c rest ih =>
        intro h
        rw [List.flatMap_cons, h c (by simp), ih fun x hx => h x (by simp [hx])]
        rfl
    cases s with
    | mk data =>
      simp only [jsonStrLit, jsonEscape]
      rw [aux data hs]

/-- Closed instance of `claim_C3` at a concrete transaction and a
concrete escape-free value. -/
theorem claim_C3_witness :
    canonicalJSON
        { fromAddr := "af", toAddr := "bt", amount := "10", fee := "2", nonce := "0",
          memo := none } =
      utf8
        ("\x7b\"amount\":" ++ jsonStrLit "10" ++ ",\"fee\":" ++ jsonStrLit "2" ++
          ",\"from\":" ++ jsonStrLit "af" ++ ",\"nonce\":" ++ jsonStrLit "0" ++
          ",\"to\":" ++ jsonStrLit "bt" ++ ",\"type\":\"transfer\"\x7d") ∧
    jsonStrLit "1000" = "\"" ++ "1000" ++ "\"" :=
  ⟨(claim_C3
      { fromAddr := "af", toAddr := "bt", amount := "10", fee := "2", nonce := "0",
        memo := none }).1,
   (claim_C3
      { fromAddr := "af", toAddr := "bt", amount := "10", fee := "2", nonce := "0",
        memo := none }).2 "1000" (by decide)⟩

/-! ## Claim C7 (corrected)

The spec says `verify` "returns false (never throws) on malformed
inputs".  The code (`verifySync`, src/crypto/ed25519.ts) throws on a
wrong-length public key or signature before reaching its `try`/`catch`;
only failures inside the underlying verification are downgraded to
`false`. -/

/-- Counterexample to C7 as stated: on empty inputs the verify operation
throws the wrong-length error instead of returning a boolean. -/
theorem claim_C7_counterexample :
    verifySync [] [] [] = .error "Public key must be 32 bytes" ∧
    ∀ b : Bool, verifySync [] [] [] ≠ .ok b := by
  constructor
  · rfl
  · intro b h
    cases h

/-- C7 amended: with a 32-byte public key and a 64-byte signature,
`verifySync` always returns a boolean (any internal verification error is
caught and becomes `false`); a wrong-length public key or signature makes
it throw the corresponding error instead. -/
theorem claim_C7 (signature message publicKey : Bytes) :
    (publicKey.length = 32 → signature.length = 64 →
      verifySync signature message publicKey =
        .ok (match ed25519Verify signature message publicKey with
          | .ok b => b
          | .error _ => false) ∧
      ∃ b : Bool, verifySync signature message publicKey = .ok b) ∧
    (publicKey.length ≠ 32 →
      verifySync signature message publicKey = .error "Public key must be 32 bytes") ∧
    (publicKey.length = 32 → signature.length ≠ 64 →
      verifySync signature message publicKey = .error "Signature must be 64 bytes") := by
  refine ⟨?_, ?_, ?_⟩
  · intro hpk hsig
    refine ⟨by simp [verifySync, hpk, hsig], ?_⟩
    exact ⟨(match ed25519Verify signature message publicKey with
            | .ok b => b
            | .error _ => false),
      by simp [verifySync, hpk, hsig]⟩
  · intro hpk
    simp [verifySync, hpk]
  · intro hpk hsig
    simp [verifySync, hpk, hsig]

/-- Closed instance of `claim_C7` at concrete well-lengthed and
wrong-lengthed inputs. -/
theorem claim_C7_witness :
    (∃ b : Bool,
      verifySync (List.replicate 64 0) [] (List.replicate 32 0) = .ok b) ∧
    verifySync [] [] [1] = .error "Public key must be 32 bytes" ∧
    verifySync [] [] (List.replicate 32 0) = .error "Signature must be 64 bytes" :=
  ⟨((claim_C7 (List.replicate 64 0) [] (List.replicate 32 0)).1 (by simp) (by simp)).2,
   (claim_C7 [] [] [1]).2.1 (by simp),
   (claim_C7 [] [] (List.replicate 32 0)).2.2 (by simp) (by simp)⟩

/-! ## Bit-operation rewrite lemmas (JavaScript `>> << & |` on the value
ranges used here) -/

theorem shr1 (a : Nat) : a >>> 1 = a / 2 := by rw [Nat.shiftRight_eq_div_pow]
theorem shr2 (a : Nat) : a >>> 2 = a / 4 := by rw [Nat.shiftRight_eq_div_pow]
theorem shr3 (a : Nat) : a >>> 3 = a / 8 := by rw [Nat.shiftRight_eq_div_pow]
theorem shr4 (a : Nat) : a >>> 4 = a / 16 := by rw [Nat.shiftRight_eq_div_pow]
theorem shr5 (a : Nat) : a >>> 5 = a / 32 := by rw [Nat.shiftRight_eq_div_pow]
theorem shr6 (a : Nat) : a >>> 6 = a / 64 := by rw [Nat.shiftRight_eq_div_pow]
theorem shr7 (a : Nat) : a >>> 7 = a / 128 := by rw [Nat.shiftRight_eq_div_pow]

theorem shl1 (a : Nat) : a <<< 1 = a * 2 := by rw [Nat.shiftLeft_eq]
theorem shl2 (a : Nat) : a <<< 2 = a * 4 := by rw [Nat.shiftLeft_eq]
theorem shl3 (a : Nat) : a <<< 3 = a * 8 := by rw [Nat.shiftLeft_eq]
theorem shl4 (a : Nat) : a <<< 4 = a * 16 := by rw [Nat.shiftLeft_eq]
theorem shl5 (a : Nat) : a <<< 5 = a * 32 := by rw [Nat.shiftLeft_eq]
theorem shl6 (a : Nat) : a <<< 6 = a * 64 := by rw [Nat.shiftLeft_eq]

theorem and1 (a : Nat) : a &&& 1 = a % 2 := Nat.and_pow_two_sub_one_eq_mod a 1
theorem and3 (a : Nat) : a &&& 3 = a % 4 := Nat.and_pow_two_sub_one_eq_mod a 2
theorem and7 (a : Nat) : a &&& 7 = a % 8 := Nat.and_pow_two_sub_one_eq_mod a 3
theorem and15 (a : Nat) : a &&& 15 = a % 16 := Nat.and_pow_two_sub_one_eq_mod a 4
theorem and31 (a : Nat) : a &&& 31 = a % 32 := Nat.and_pow_two_sub_one_eq_mod a 5
theorem and63 (a : Nat) : a &&& 63 = a % 64 := Nat.and_pow_two_sub_one_eq_mod a 6

/-- Disjoint `|` is addition: `a * 2^k | b = a * 2^k + b` for `b < 2^k`,
with the power given as a literal. -/
theorem lor_lit {b : Nat} (a k m : Nat) (hm : 2 ^ k = m) (h : b < m) :
    a * m ||| b = a * m + b := by
  subst hm
  rw [Nat.mul_comm a]
  exact (Nat.mul_add_lt_is_or h a).symm

/-! ## Hex round-trip lemmas -/

theorem hexCharVal_hexDigit : ∀ d : Nat, d < 16 → hexCharVal (hexDigit d) = some d := by
  decide

theorem hexDigit_mem (d : Nat) : hexDigit d ∈ "0123456789abcdef".data := by
  rcases Nat.lt_or_ge d 16 with h | h
  · interval_cases d <;> decide
  · unfold hexDigit
    rw [List.getD_eq_default]
    · decide
    · simpa using h

theorem hexDigit_ne_x (d : Nat) : hexDigit d ≠ 'x' := by
  intro hcon
  have := hexDigit_mem d
  rw [hcon] at this
  exact absurd this (by decide)

theorem hexPair_roundtrip (b : Nat) (hb : b < 256) :
    hexPairVal (hexDigit (b / 16 % 16)) (hexDigit (b % 16)) = b := by
  have h1 : b / 16 % 16 = b / 16 := Nat.mod_eq_of_lt (by omega)
  simp only [hexPairVal, h1, hexCharVal_hexDigit _ (show b / 16 < 16 by omega),
    hexCharVal_hexDigit _ (show b % 16 < 16 by omega)]
  omega

theorem hexPairs_flatMap : ∀ bs : Bytes, (∀ b ∈ bs, b < 256) →
    hexPairs (bs.flatMap fun b => [hexDigit (b / 16 % 16), hexDigit (b % 16)]) = bs := by
  intro bs
  induction bs with
  | nil => intro _; rfl
  | cons b rest ih =>
    intro h
    have hcons : ((b :: rest).flatMap fun x => [hexDigit (x / 16 % 16), hexDigit (x % 16)]) =
        hexDigit (b / 16 % 16) :: hexDigit (b % 16) ::
          (rest.flatMap fun x => [hexDigit (x / 16 % 16), hexDigit (x % 16)]) := rfl
    rw [hcons, hexPairs, hexPair_roundtrip b (h b (by simp)),
      ih fun x hx => h x (by simp [hx])]

theorem bytesToHex_length (bs : Bytes) : (bytesToHex bs).length = 2 * bs.length := by
  show (bs.flatMap fun b => [hexDigit (b / 16 % 16), hexDigit (b % 16)]).length = 2 * bs.length
  induction bs with
  | nil => rfl
  | cons b rest ih =>
    have hcons : ((b :: rest).flatMap fun x => [hexDigit (x / 16 % 16), hexDigit (x % 16)]) =
        hexDigit (b / 16 % 16) :: hexDigit (b % 16) ::
          (rest.flatMap fun x => [hexDigit (x / 16 % 16), hexDigit (x % 16)]) := rfl
    rw [hcons, List.length_cons, List.length_cons, ih]
    simp
    omega

theorem bytesToHex_mem (bs : Bytes) : ∀ c ∈ (bytesToHex bs).data, c ∈ "0123456789abcdef".data := by
  intro c hc
  have : c ∈ bs.flatMap fun b => [hexDigit (b / 16 % 16), hexDigit (b % 16)] := hc
  rw [List.mem_flatMap] at this
  obtain ⟨b, -, hcb⟩ := this
  simp only [List.mem_cons, List.not_mem_nil, or_false] at hcb
  rcases hcb with rfl | rfl
  · exact hexDigit_mem _
  · exact hexDigit_mem _

theorem hexToBytes_bytesToHex (bs : Bytes) (h : ∀ b ∈ bs, b < 256) :
    hexToBytes (bytesToHex bs) = .ok bs := by
  have hpre : ¬((bytesToHex bs).data.take 2 = ['0', 'x']) := by
    cases bs with
    | nil => simp [bytesToHex]
    | cons b rest =>
      show ¬((hexDigit (b / 16 % 16) :: hexDigit (b % 16) ::
        rest.flatMap fun x => [hexDigit (x / 16 % 16), hexDigit (x % 16)]).take 2 = ['0', 'x'])
      intro hcon
      have h2 := congrArg (fun l => l.getD 1 'z') hcon
      simp at h2
      exact hexDigit_ne_x (b % 16) h2
  show hexToBytes (bytesToHex bs) = .ok bs
  simp only [hexToBytes, hpre, if_false, if_neg hpre]
  have hlen : (bytesToHex bs).data.length % 2 = 0 := by
    have := bytesToHex_length bs
    have h2 : (bytesToHex bs).data.length = 2 * bs.length := this
    omega
  rw [if_neg (by omega)]
  exact congrArg Except.ok (hexPairs_flatMap bs h)

/-! ## Base64 round-trip lemmas -/

theorem b64Val_b64Chr : ∀ v : Nat, v < 64 → b64Val (b64Chr v) = some v := by
  decide

theorem b64Val_eq_none : b64Val '=' = none := by decide

theorem b64rec1 (b0 b1 : Nat) (h0 : b0 < 256) (h1 : b1 < 256) :
    ((b0 >>> 2) <<< 2) ||| ((((b0 &&& 3) <<< 4) ||| (b1 >>> 4)) >>> 4) = b0 := by
  simp only [shr2, shr4, shl2, shl4, and3]
  rw [lor_lit (b0 % 4) 4 16 (by norm_num) (by omega),
    lor_lit (b0 / 4) 2 4 (by norm_num) (by omega)]
  omega

theorem b64rec2 (b0 b1 b2 : Nat) (h0 : b0 < 256) (h1 : b1 < 256) (h2 : b2 < 256) :
    (((((b0 &&& 3) <<< 4) ||| (b1 >>> 4)) &&& 15) <<< 4) |||
        ((((b1 &&& 15) <<< 2) ||| (b2 >>> 6)) >>> 2) = b1 := by
  simp only [shr2, shr4, shr6, shl2, shl4, and3, and15]
  rw [lor_lit (b0 % 4) 4 16 (by norm_num) (by omega),
    lor_lit (b1 % 16) 2 4 (by norm_num) (by omega),
    lor_lit _ 4 16 (by norm_num) (by omega)]
  omega

theorem b64rec3 (b1 b2 : Nat) (h1 : b1 < 256) (h2 : b2 < 256) :
    (((((b1 &&& 15) <<< 2) ||| (b2 >>> 6)) &&& 3) <<< 6) ||| (b2 &&& 63) = b2 := by
  simp only [shr6, shl2, shl6, and3, and15, and63]
  rw [lor_lit (b1 % 16) 2 4 (by norm_num) (by omega),
    lor_lit _ 6 64 (by norm_num) (by omega)]
  omega

theorem b64rec1pad (b0 : Nat) (h0 : b0 < 256) :
    ((b0 >>> 2) <<< 2) ||| (((b0 &&& 3) <<< 4) >>> 4) = b0 := by
  simp only [shr2, shr4, shl2, shl4, and3]
  rw [Nat.mul_div_cancel _ (by norm_num), lor_lit (b0 / 4) 2 4 (by norm_num) (by omega)]
  omega

theorem b64rec2pad (b0 b1 : Nat) (h0 : b0 < 256) (h1 : b1 < 256) :
    (((((b0 &&& 3) <<< 4) ||| (b1 >>> 4)) &&& 15) <<< 4) ||| (((b1 &&& 15) <<< 2) >>> 2) = b1 := by
  simp only [shr2, shr4, shl2, shl4, and3, and15]
  rw [lor_lit (b0 % 4) 4 16 (by norm_num) (by omega),
    Nat.mul_div_cancel _ (by norm_num),
    lor_lit _ 4 16 (by norm_num) (by omega)]
  omega

theorem b64Pack_b64Go : ∀ n : Nat, ∀ bs : Bytes, bs.length ≤ n → (∀ b ∈ bs, b < 256) →
    b64Pack ((b64Go bs).filterMap b64Val) = bs := by
  intro n
  induction n with
  | zero =>
    intro bs hlen _
    have : bs = [] := List.eq_nil_of_length_eq_zero (by omega)
    subst this
    rfl
  | succ n ih =>
    intro bs hlen hby
    match bs with
    | [] => rfl
    | [b0] =>
      have h0 : b0 < 256 := hby _ (by simp)
      simp only [b64Go, List.filterMap_cons,
        b64Val_b64Chr _ (show b0 >>> 2 < 64 by rw [shr2]; omega),
        b64Val_b64Chr _ (show (b0 &&& 3) <<< 4 < 64 by rw [and3, shl4]; omega),
        b64Val_eq_none, List.filterMap_nil, b64Pack]
      rw [b64rec1pad b0 h0]
    | [b0, b1] =>
      have h0 : b0 < 256 := hby _ (by simp)
      have h1 : b1 < 256 := hby _ (by simp)
      simp only [b64Go, List.filterMap_cons,
        b64Val_b64Chr _ (show b0 >>> 2 < 64 by rw [shr2]; omega),
        b64Val_b64Chr _ (show ((b0 &&& 3) <<< 4) ||| (b1 >>> 4) < 64 by
          rw [and3, shl4, shr4, lor_lit (b0 % 4) 4 16 (by norm_num) (by omega)]; omega),
        b64Val_b64Chr _ (show (b1 &&& 15) <<< 2 < 64 by rw [and15, shl2]; omega),
        b64Val_eq_none, List.filterMap_nil, b64Pack]
      rw [b64rec1 b0 b1 h0 h1, b64rec2pad b0 b1 h0 h1]
    | b0 :: b1 :: b2 :: rest =>
      have h0 : b0 < 256 := hby _ (by simp)
      have h1 : b1 < 256 := hby _ (by simp)
      have h2 : b2 < 256 := hby _ (by simp)
      have hrest : ∀ b ∈ rest, b < 256 := fun x hx => hby x (by simp [hx])
      have hlen2 : rest.length ≤ n := by
        simp only [List.length_cons] at hlen
        omega
      simp only [b64Go, List.filterMap_cons,
        b64Val_b64Chr _ (show b0 >>> 2 < 64 by rw [shr2]; omega),
        b64Val_b64Chr _ (show ((b0 &&& 3) <<< 4) ||| (b1 >>> 4) < 64 by
          rw [and3, shl4, shr4, lor_lit (b0 % 4) 4 16 (by norm_num) (by omega)]; omega),
        b64Val_b64Chr _ (show ((b1 &&& 15) <<< 2) ||| (b2 >>> 6) < 64 by
          rw [and15, shl2, shr6, lor_lit (b1 % 16) 2 4 (by norm_num) (by omega)]; omega),
        b64Val_b64Chr _ (show b2 &&& 63 < 64 by rw [and63]; omega),
        b64Pack]
      rw [b64rec1 b0 b1 h0 h1, b64rec2 b0 b1 b2 h0 h1 h2, b64rec3 b1 b2 h1 h2,
        ih rest hlen2 hrest]

theorem base64_roundtrip (bs : Bytes) (h : ∀ b ∈ bs, b < 256) :
    base64ToBytes (bytesToBase64 bs) = bs := by
  show b64Pack ((b64Go bs).filterMap b64Val) = bs
  exact b64Pack_b64Go bs.length bs le_rfl h

/-! ## Claim C1 -/

theorem txHash_length (t : TxBody) : (txHash t).length = 32 :=
  blake2b_length 32 _ (by omega)

theorem txHash_lt (t : TxBody) : ∀ b ∈ txHash t, b < 256 :=
  blake2b_lt 32 _

theorem txSign_eval (t : TxBody) (key : Bytes) (hlen : key.length = 64) :
    txSign t key =
      .ok ⟨bytesToHex (ed25519Sign (txHash t) (key.take 32)),
        bytesToHex ((key.drop 32).take 32), bytesToHex (txHash t)⟩ := by
  have hseed : (key.take 32).length = 32 := by simp [hlen]
  simp [txSign, hlen, signSync, hseed, except_bind_ok]

/-- C1: `createSigned` applies one single text encoding — base64, the
upstream fix — to both `pubkey` and `sig`: decoding `pubkey` as base64
yields exactly the 32 public-key bytes and decoding `sig` as base64
yields exactly the 64 signature bytes, while `hash` remains a 64-character
lowercase-hex string. -/
theorem claim_C1 (t : TxBody) (key : Bytes) (hlen : key.length = 64)
    (hby : ∀ b ∈ key, b < 256) :
    ∃ st : SignedTx, txCreateSigned t key = .ok st ∧ st.tx = t ∧
      base64ToBytes st.pubkey = (key.drop 32).take 32 ∧
      (base64ToBytes st.pubkey).length = 32 ∧
      base64ToBytes st.sig = ed25519Sign (txHash t) (key.take 32) ∧
      (base64ToBytes st.sig).length = 64 ∧
      st.hash = bytesToHex (txHash t) ∧
      st.hash.length = 64 ∧
      ∀ c ∈ st.hash.data, c ∈ "0123456789abcdef".data := by
  have hpub_mem : ∀ b ∈ (key.drop 32).take 32, b < 256 := fun b hb =>
    hby b (List.mem_of_mem_drop (List.mem_of_mem_take hb))
  have hpub_len : ((key.drop 32).take 32).length = 32 := by simp [hlen]
  have hsig_mem := ed25519Sign_lt (txHash t) (key.take 32)
  have hsig_len := ed25519Sign_length (txHash t) (key.take 32)
  have hhexsig := hexToBytes_bytesToHex _ hsig_mem
  have hhexpub := hexToBytes_bytesToHex _ hpub_mem
  refine ⟨{ tx := t,
            pubkey := bytesToBase64 ((key.drop 32).take 32),
            sig := bytesToBase64 (ed25519Sign (txHash t) (key.take 32)),
            hash := bytesToHex (txHash t) }, ?_, rfl, ?_, ?_, ?_, ?_, rfl, ?_, ?_⟩
  · simp only [txCreateSigned, txSign_eval t key hlen, except_bind_ok, hhexsig, hhexpub]
  · exact base64_roundtrip _ hpub_mem
  · rw [base64_roundtrip _ hpub_mem, hpub_len]
  · exact base64_roundtrip _ hsig_mem
  · rw [base64_roundtrip _ hsig_mem, hsig_len]
  · rw [bytesToHex_length, txHash_length]
  · exact bytesToHex_mem _

/-- Closed instance of `claim_C1` at a concrete transaction and a
concrete 64-byte key. -/
theorem claim_C1_witness :
    ∃ st : SignedTx,
      txCreateSigned
          { fromAddr := "a", toAddr := "b", amount := "1", fee := "1", nonce := "0",
            memo := none }
          (List.replicate 64 5) = .ok st ∧
      st.tx =
        { fromAddr := "a", toAddr := "b", amount := "1", fee := "1", nonce := "0",
          memo := none } ∧
      base64ToBytes st.pubkey = ((List.replicate 64 5).drop 32).take 32 ∧
      (base64ToBytes st.pubkey).length = 32 ∧
      base64ToBytes st.sig =
        ed25519Sign
          (txHash
            { fromAddr := "a", toAddr := "b", amount := "1", fee := "1", nonce := "0",
              memo := none })
          ((List.replicate 64 5).take 32) ∧
      (base64ToBytes st.sig).length = 64 ∧
      st.hash =
        bytesToHex
          (txHash
            { fromAddr := "a", toAddr := "b", amount := "1", fee := "1", nonce := "0",
              memo := none }) ∧
      st.hash.length = 64 ∧
      ∀ c ∈ st.hash.data, c ∈ "0123456789abcdef".data :=
  claim_C1 _ (List.replicate 64 5) (by simp) (by simp)

/-! ## Claim C8: UTF-8 decode/encode round-trip -/

theorem shr12 (a : Nat) : a >>> 12 = a / 4096 := by rw [Nat.shiftRight_eq_div_pow]
theorem shr18 (a : Nat) : a >>> 18 = a / 262144 := by rw [Nat.shiftRight_eq_div_pow]

theorem char_toNat_lt (c : Char) : c.toNat < 1114112 := by
  have h := c.valid
  simp only [UInt32.isValidChar, Nat.isValidChar] at h
  show c.val.toNat < 1114112
  rcases h with h | ⟨h1, h2⟩ <;> omega

theorem utf8DecodeChar_encode (c : Char) (rest : Bytes) :
    utf8DecodeChar (utf8Char c ++ rest) = some (c.toNat, rest) := by
  have hval : c.toNat < 1114112 := char_toNat_lt c
  by_cases h1 : c.toNat < 128
  · simp only [utf8Char, if_pos h1, List.cons_append, List.nil_append]
    simp [utf8DecodeChar, h1]
  · by_cases h2 : c.toNat < 2048
    · have e0 : 0xC0 ||| (c.toNat >>> 6) = 192 + c.toNat / 64 := by
        rw [shr6, show (0xC0 : Nat) = 3 * 64 from rfl, lor_lit 3 6 64 (by norm_num) (by omega)]
      have e1 : 0x80 ||| (c.toNat &&& 0x3F) = 128 + c.toNat % 64 := by
        rw [show (0x3F : Nat) = 63 from rfl, and63, show (0x80 : Nat) = 2 * 64 from rfl,
          lor_lit 2 6 64 (by norm_num) (by omega)]
      simp only [utf8Char, if_neg h1, if_pos h2, e0, e1, List.cons_append, List.nil_append]
      simp only [utf8DecodeChar]
      rw [if_neg (by omega), if_neg (by omega), if_pos (by omega)]
      simp only [Option.some.injEq, Prod.mk.injEq]
      exact ⟨by omega, trivial⟩
    · by_cases h3 : c.toNat < 65536
      · have e0 : 0xE0 ||| (c.toNat >>> 12) = 224 + c.toNat / 4096 := by
          rw [shr12, show (0xE0 : Nat) = 14 * 16 from rfl,
            lor_lit 14 4 16 (by norm_num) (by omega)]
        have e1 : 0x80 ||| ((c.toNat >>> 6) &&& 0x3F) = 128 + c.toNat / 64 % 64 := by
          rw [shr6, show (0x3F : Nat) = 63 from rfl, and63, show (0x80 : Nat) = 2 * 64 from rfl,
            lor_lit 2 6 64 (by norm_num) (by omega)]
        have e2 : 0x80 ||| (c.toNat &&& 0x3F) = 128 + c.toNat % 64 := by
          rw [show (0x3F : Nat) = 63 from rfl, and63, show (0x80 : Nat) = 2 * 64 from rfl,
            lor_lit 2 6 64 (by norm_num) (by omega)]
        simp only [utf8Char, if_neg h1, if_neg h2, if_pos h3, e0, e1, e2, List.cons_append,
          List.nil_append]
        simp only [utf8DecodeChar]
        rw [if_neg (by omega), if_neg (by omega), if_neg (by omega), if_pos (by omega)]
        simp only [Option.some.injEq, Prod.mk.injEq]
        exact ⟨by omega, trivial⟩
      · have e0 : 0xF0 ||| (c.toNat >>> 18) = 240 + c.toNat / 262144 := by
          rw [shr18, show (0xF0 : Nat) = 30 * 8 from rfl,
            lor_lit 30 3 8 (by norm_num) (by omega)]
        have e1 : 0x80 ||| ((c.toNat >>> 12) &&& 0x3F) = 128 + c.toNat / 4096 % 64 := by
          rw [shr12, show (0x3F : Nat) = 63 from rfl, and63, show (0x80 : Nat) = 2 * 64 from rfl,
            lor_lit 2 6 64 (by norm_num) (by omega)]
        have e2 : 0x80 ||| ((c.toNat >>> 6) &&& 0x3F) = 128 + c.toNat / 64 % 64 := by
          rw [shr6, show (0x3F : Nat) = 63 from rfl, and63, show (0x80 : Nat) = 2 * 64 from rfl,
            lor_lit 2 6 64 (by norm_num) (by omega)]
        have e3 : 0x80 ||| (c.toNat &&& 0x3F) = 128 + c.toNat % 64 := by
          rw [show (0x3F : Nat) = 63 from rfl, and63, show (0x80 : Nat) = 2 * 64 from rfl,
            lor_lit 2 6 64 (by norm_num) (by omega)]
        simp only [utf8Char, if_neg h1, if_neg h2, if_neg h3, e0, e1, e2, e3, List.cons_append,
          List.nil_append]
        simp only [utf8DecodeChar]
        rw [if_neg (by omega), if_neg (by omega), if_neg (by omega), if_neg (by omega)]
        simp only [Option.some.injEq, Prod.mk.injEq]
        exact ⟨by omega, trivial⟩

theorem utf8Char_length_pos (c : Char) : 1 ≤ (utf8Char c).length := by
  simp only [utf8Char]
  split
  · simp
  · split
    · simp
    · split <;> simp

theorem utf8_length_ge (l : List Char) : l.length ≤ (l.flatMap utf8Char).length := by
  induction l with
  | nil => simp
  | cons c cs ih =>
    have hcons : ((c :: cs).flatMap utf8Char) = utf8Char c ++ cs.flatMap utf8Char := rfl
    rw [hcons, List.length_append, List.length_cons]
    have := utf8Char_length_pos c
    omega

theorem utf8DecodeList_encode : ∀ (l : List Char) (fuel : Nat), l.length ≤ fuel →
    utf8DecodeList fuel (l.flatMap utf8Char) = some (l.map Char.toNat) := by
  intro l
  induction l with
  | nil =>
    intro fuel _
    cases fuel <;> rfl
  | cons c cs ih =>
    intro fuel hf
    match fuel with
    | fuel + 1 =>
      have hcons : ((c :: cs).flatMap utf8Char) = utf8Char c ++ cs.flatMap utf8Char := rfl
      rw [hcons]
      obtain ⟨b, bs, hb⟩ : ∃ b bs, utf8Char c ++ cs.flatMap utf8Char = b :: bs := by
        cases h : utf8Char c ++ cs.flatMap utf8Char with
        | nil =>
          rw [List.append_eq_nil] at h
          have h1 := utf8Char_length_pos c
          rw [h.1] at h1
          simp at h1
        | cons x xs => exact ⟨x, xs, rfl⟩
      rw [hb]
      simp only [utf8DecodeList]
      rw [← hb, utf8DecodeChar_encode c]
      show Option.map (fun x => c.toNat :: x) (utf8DecodeList fuel (cs.flatMap utf8Char)) =
        some (List.map Char.toNat (c :: cs))
      rw [ih fuel (Nat.succ_le_succ_iff.mp hf)]
      rfl

/-! ## Claim C8: JSON string-literal parse/escape round-trip -/

theorem escape_length_ge (l : List Char) : l.length ≤ (l.flatMap jsonEscapeChar).length := by
  induction l with
  | nil => simp
  | cons c cs ih =>
    have hcons : ((c :: cs).flatMap jsonEscapeChar) =
        jsonEscapeChar c ++ cs.flatMap jsonEscapeChar := rfl
    have hpos : 1 ≤ (jsonEscapeChar c).length := by
      simp only [jsonEscapeChar]
      repeat' split
      all_goals simp
    rw [hcons, List.length_append, List.length_cons]
    omega

theorem parseJStr_round : ∀ (v : List Char) (fuel : Nat) (rest : List Char), v.length < fuel →
    parseJStr fuel (v.flatMap jsonEscapeChar ++ '"' :: rest) = some (v, rest) := by
  intro v
  induction v with
  | nil =>
    intro fuel rest h
    cases fuel with
    | zero => omega
    | succ fuel =>
      show parseJStr (fuel + 1) ('"' :: rest) = some ([], rest)
      simp [parseJStr]
  | cons c cs ih =>
    intro fuel rest h
    cases fuel with
    | zero => omega
    | succ fuel =>
      have hcs := ih fuel rest (Nat.succ_lt_succ_iff.mp h)
      have hshape : ((c :: cs).flatMap jsonEscapeChar ++ '"' :: rest) =
          jsonEscapeChar c ++ (cs.flatMap jsonEscapeChar ++ '"' :: rest) := by
        show (jsonEscapeChar c ++ cs.flatMap jsonEscapeChar) ++ '"' :: rest = _
        rw [List.append_assoc]
      rw [hshape]
      by_cases hq : c = '"'
      · subst hq
        simp +decide [jsonEscapeChar, parseJStr, unescapeChar, hcs]
      by_cases hb : c = '\\'
      · subst hb
        simp +decide [jsonEscapeChar, parseJStr, unescapeChar, hcs]
      by_cases h08 : c.toNat = 8
      · have hc : Char.ofNat 8 = c := by rw [← h08, Char.ofNat_toNat]
        simp +decide [jsonEscapeChar, hq, hb, h08, parseJStr, unescapeChar, hcs]
        exact hc
      by_cases h09 : c.toNat = 9
      · have hc : Char.ofNat 9 = c := by rw [← h09, Char.ofNat_toNat]
        simp +decide [jsonEscapeChar, hq, hb, h08, h09, parseJStr, unescapeChar, hcs]
        exact hc
      by_cases h0A : c.toNat = 10
      · have hc : Char.ofNat 10 = c := by rw [← h0A, Char.ofNat_toNat]
        simp +decide [jsonEscapeChar, hq, hb, h08, h09, h0A, parseJStr, unescapeChar, hcs]
        exact hc
      by_cases h0C : c.toNat = 12
      · have hc : Char.ofNat 12 = c := by rw [← h0C, Char.ofNat_toNat]
        simp +decide [jsonEscapeChar, hq, hb, h08, h09, h0A, h0C, parseJStr, unescapeChar, hcs]
        exact hc
      by_cases h0D : c.toNat = 13
      · have hc : Char.ofNat 13 = c := by rw [← h0D, Char.ofNat_toNat]
        simp +decide [jsonEscapeChar, hq, hb, h08, h09, h0A, h0C, h0D, parseJStr,
          unescapeChar, hcs]
        exact hc
      by_cases hlt : c.toNat < 32
      · simp +decide [jsonEscapeChar, hq, hb, h08, h09, h0A, h0C, h0D, hlt, parseJStr,
          hexCharVal_hexDigit _ (show c.toNat / 16 < 16 by omega),
          hexCharVal_hexDigit _ (show c.toNat % 16 < 16 by omega),
          (by decide : hexCharVal '0' = some 0), hcs]
        conv_rhs => rw [← Char.ofNat_toNat c]
        congr 1
        omega
      · simp +decide [jsonEscapeChar, hq, hb, h08, h09, h0A, h0C, h0D, hlt, parseJStr, hcs]

theorem expectLit_append : ∀ (pat rest : List Char), expectLit pat (pat ++ rest) = some rest := by
  intro pat
  induction pat with
  | nil => intro rest; rfl
  | cons p ps ih => intro rest; simp [expectLit, ih]

/-! ## Claim C8: parsing the canonical character stream -/

theorem parseJStr_round' (v rest : List Char) :
    parseJStr (v.flatMap jsonEscapeChar ++ '"' :: rest).length
      (v.flatMap jsonEscapeChar ++ '"' :: rest) = some (v, rest) := by
  apply parseJStr_round
  have := escape_length_ge v
  simp only [List.length_append, List.length_cons]
  omega

theorem expectLit_self (pat : List Char) : expectLit pat pat = some [] := by
  have h := expectLit_append pat []
  simpa using h

theorem expectLit_memo_nonce (X : List Char) :
    expectLit (",\"memo\":\"").data ((",\"nonce\":\"").data ++ X) = none := by
  simp +decide [expectLit]

theorem canonicalChars_none (t : TxBody) (hm : t.memo = none) :
    canonicalChars t =
      ("\x7b\"amount\":\"").data ++ (t.amount.data.flatMap jsonEscapeChar ++ '"' ::
        ((",\"fee\":\"").data ++ (t.fee.data.flatMap jsonEscapeChar ++ '"' ::
          ((",\"from\":\"").data ++ (t.fromAddr.data.flatMap jsonEscapeChar ++ '"' ::
            ((",\"nonce\":\"").data ++ (t.nonce.data.flatMap jsonEscapeChar ++ '"' ::
              ((",\"to\":\"").data ++ (t.toAddr.data.flatMap jsonEscapeChar ++ '"' ::
                (",\"type\":\"transfer\"\x7d").data))))))))) := by
  simp +decide [canonicalChars, txKeys, txFields, hm, sortStrings, insertSorted, txGet,
    jsonMember, joinComma, jsonStrLit, jsonEscape, jsonEscapeChar]

theorem canonicalChars_some (t : TxBody) (m : String) (hm : t.memo = some m) :
    canonicalChars t =
      ("\x7b\"amount\":\"").data ++ (t.amount.data.flatMap jsonEscapeChar ++ '"' ::
        ((",\"fee\":\"").data ++ (t.fee.data.flatMap jsonEscapeChar ++ '"' ::
          ((",\"from\":\"").data ++ (t.fromAddr.data.flatMap jsonEscapeChar ++ '"' ::
            ((",\"memo\":\"").data ++ (m.data.flatMap jsonEscapeChar ++ '"' ::
              ((",\"nonce\":\"").data ++ (t.nonce.data.flatMap jsonEscapeChar ++ '"' ::
                ((",\"to\":\"").data ++ (t.toAddr.data.flatMap jsonEscapeChar ++ '"' ::
                  (",\"type\":\"transfer\"\x7d").data))))))))))) := by
  simp +decide [canonicalChars, txKeys, txFields, hm, sortStrings, insertSorted, txGet,
    jsonMember, joinComma, jsonStrLit, jsonEscape, jsonEscapeChar]

theorem parseTxChars_round (t : TxBody) : parseTxChars (canonicalChars t) = some t := by
  obtain ⟨fr, toA, am, fe, no, mo⟩ := t
  cases mo with
  | none =>
    rw [canonicalChars_none _ rfl]
    unfold parseTxChars
    rw [expectLit_append]; dsimp only
    rw [parseJStr_round']; dsimp only
    rw [expectLit_append]; dsimp only
    rw [parseJStr_round']; dsimp only
    rw [expectLit_append]; dsimp only
    rw [parseJStr_round']; dsimp only
    rw [expectLit_memo_nonce]; dsimp only
    unfold parseTail
    rw [expectLit_append]; dsimp only
    rw [parseJStr_round']; dsimp only
    rw [expectLit_append]; dsimp only
    rw [parseJStr_round']; dsimp only
    rw [expectLit_self]; dsimp only
    simp
  | some m =>
    rw [canonicalChars_some _ m rfl]
    unfold parseTxChars
    rw [expectLit_append]; dsimp only
    rw [parseJStr_round']; dsimp only
    rw [expectLit_append]; dsimp only
    rw [parseJStr_round']; dsimp only
    rw [expectLit_append]; dsimp only
    rw [parseJStr_round']; dsimp only
    rw [expectLit_append]; dsimp only
    rw [parseJStr_round']; dsimp only
    unfold parseTail
    rw [expectLit_append]; dsimp only
    rw [parseJStr_round']; dsimp only
    rw [expectLit_append]; dsimp only
    rw [parseJStr_round']; dsimp only
    rw [expectLit_self]; dsimp only
    simp

theorem recoverTx_canonical (t : TxBody) : recoverTx (canonicalJSON t) = some t := by
  unfold recoverTx
  have hdec := utf8DecodeList_encode (canonicalChars t) (canonicalJSON t).length
    (utf8_length_ge (canonicalChars t))
  rw [show canonicalJSON t = (canonicalChars t).flatMap utf8Char from rfl] at hdec ⊢
  rw [hdec]
  dsimp only
  have hchars : ∀ l : List Char, (l.map Char.toNat).map Char.ofNat = l := by
    intro l
    induction l with
    | nil => rfl
    | cons c cs ih => simp [ih]
  rw [hchars, parseTxChars_round]

/-- C8: `canonicalJSON` is injective on transaction bodies: two bodies
that differ in any field — including one having a memo the other lacks —
have different canonical byte sequences. -/
theorem claim_C8 (t1 t2 : TxBody) :
    (canonicalJSON t1 = canonicalJSON t2 → t1 = t2) ∧
    (t1 ≠ t2 → canonicalJSON t1 ≠ canonicalJSON t2) := by
  constructor
  · intro h
    have h1 := recoverTx_canonical t1
    rw [h, recoverTx_canonical t2] at h1
    exact (Option.some.injEq _ _).mp h1.symm
  · intro hne hcon
    have h1 := recoverTx_canonical t1
    rw [hcon, recoverTx_canonical t2] at h1
    exact hne (((Option.some.injEq _ _).mp h1).symm)

/-- Closed instance of `claim_C8`: two concrete bodies differing only in
an absent-versus-empty-adjacent memo field have different canonical
bytes. -/
theorem claim_C8_witness :
    canonicalJSON
        { fromAddr := "a", toAddr := "b", amount := "1", fee := "1", nonce := "0",
          memo := none } ≠
      canonicalJSON
        { fromAddr := "a", toAddr := "b", amount := "1", fee := "1", nonce := "0",
          memo := some "x" } :=
  (claim_C8
    { fromAddr := "a", toAddr := "b", amount := "1", fee := "1", nonce := "0", memo := none }
    { fromAddr := "a", toAddr := "b", amount := "1", fee := "1", nonce := "0",
      memo := some "x" }).2 (by decide)

/-! ## Claim C5: bech32 checksum theory -/

theorem xor_shiftLeft (x y k : Nat) : (x ^^^ y) <<< k = (x <<< k) ^^^ (y <<< k) := by
  apply Nat.eq_of_testBit_eq
  intro i
  simp only [Nat.testBit_shiftLeft, Nat.testBit_xor]
  by_cases h : k ≤ i <;> simp [h]

theorem xor_shiftRight (x y k : Nat) : (x ^^^ y) >>> k = (x >>> k) ^^^ (y >>> k) := by
  apply Nat.eq_of_testBit_eq
  intro i
  simp

theorem gen_if_xor (u v G : Nat) :
    (if (u ^^^ v) &&& 1 = 1 then G else 0) =
      (if u &&& 1 = 1 then G else 0) ^^^ (if v &&& 1 = 1 then G else 0) := by
  have hx : (u ^^^ v) &&& 1 = (u &&& 1) ^^^ (v &&& 1) := Nat.and_xor_distrib_right
  have hu : u &&& 1 = 0 ∨ u &&& 1 = 1 := by rw [and1]; omega
  have hv : v &&& 1 = 0 ∨ v &&& 1 = 1 := by rw [and1]; omega
  rcases hu with h1 | h1 <;> rcases hv with h2 | h2 <;>
    simp [hx, h1, h2, Nat.xor_self]

theorem nat_xor_left_comm (a b c : Nat) : a ^^^ (b ^^^ c) = b ^^^ (a ^^^ c) := by
  rw [← Nat.xor_assoc, Nat.xor_comm a b, Nat.xor_assoc]

set_option maxHeartbeats 1000000 in
theorem polymodStep_xor (a b : Nat) :
    polymodStep (a ^^^ b) = polymodStep a ^^^ polymodStep b := by
  unfold polymodStep
  simp only [xor_shiftRight, gen_if_xor,
    show ∀ x y : Nat, (x ^^^ y) &&& 0x1ffffff = (x &&& 0x1ffffff) ^^^ (y &&& 0x1ffffff) from
      fun x y => Nat.and_xor_distrib_right,
    xor_shiftLeft]
  simp [Nat.xor_assoc, Nat.xor_comm, nat_xor_left_comm]

theorem polymodFold_append (c : Nat) (xs ys : List Nat) :
    polymodFold c (xs ++ ys) = polymodFold (polymodFold c xs) ys := by
  simp [polymodFold, List.foldl_append]

theorem polymodFold_xor (ws : List Nat) : ∀ a b : Nat,
    polymodFold (a ^^^ b) ws = polymodFold a ws ^^^ polymodFold b (List.replicate ws.length 0) := by
  induction ws with
  | nil => intro a b; rfl
  | cons w ws ih =>
    intro a b
    show polymodFold (polymodStep (a ^^^ b) ^^^ w) ws = _
    rw [polymodStep_xor]
    have hre : polymodFold b (List.replicate (w :: ws).length 0) =
        polymodFold (polymodStep b) (List.replicate ws.length 0) := by
      show polymodFold (polymodStep b ^^^ 0) (List.replicate ws.length 0) = _
      rw [Nat.xor_zero]
    rw [hre]
    have hsw : polymodStep a ^^^ polymodStep b ^^^ w =
        (polymodStep a ^^^ w) ^^^ polymodStep b := by
      rw [Nat.xor_assoc, Nat.xor_assoc, Nat.xor_comm (polymodStep b) w]
    rw [hsw, ih]
    rfl

theorem polymodStep_lt {a : Nat} (h : a < 2 ^ 30) : polymodStep a < 2 ^ 30 := by
  unfold polymodStep
  apply Nat.xor_lt_two_pow _ (by split <;> norm_num)
  apply Nat.xor_lt_two_pow _ (by split <;> norm_num)
  apply Nat.xor_lt_two_pow _ (by split <;> norm_num)
  apply Nat.xor_lt_two_pow _ (by split <;> norm_num)
  apply Nat.xor_lt_two_pow _ (by split <;> norm_num)
  have hm : a &&& 0x1ffffff < 2 ^ 25 := by
    rw [show (0x1ffffff : Nat) = 2 ^ 25 - 1 from rfl, Nat.and_pow_two_sub_one_eq_mod]
    exact Nat.mod_lt _ (by norm_num)
  calc (a &&& 0x1ffffff) <<< 5 = (a &&& 0x1ffffff) * 32 := shl5 _
    _ < 2 ^ 30 := by
        have : a &&& 0x1ffffff ≤ 2 ^ 25 - 1 := by omega
        calc (a &&& 0x1ffffff) * 32 ≤ (2 ^ 25 - 1) * 32 := Nat.mul_le_mul_right _ this
          _ < 2 ^ 30 := by norm_num

theorem polymodFold_lt (ws : List Nat) : ∀ c : Nat, c < 2 ^ 30 → (∀ w ∈ ws, w < 2 ^ 30) →
    polymodFold c ws < 2 ^ 30 := by
  induction ws with
  | nil => intro c hc _; exact hc
  | cons w ws ih =>
    intro c hc hw
    show polymodFold (polymodStep c ^^^ w) ws < 2 ^ 30
    exact ih _ (Nat.xor_lt_two_pow (polymodStep_lt hc) (hw w (by simp)))
      fun x hx => hw x (by simp [hx])

theorem xor_lit {b : Nat} (a k m : Nat) (hm : 2 ^ k = m) (h : b < m) :
    a * m ^^^ b = a * m + b := by
  subst hm
  have hor : 2 ^ k * a + b = 2 ^ k * a ||| b := Nat.mul_add_lt_is_or h a
  rw [Nat.mul_comm a]
  rw [hor]
  apply Nat.eq_of_testBit_eq
  intro i
  by_cases hik : i < k
  · have hlow : (2 ^ k * a).testBit i = false := by
      rw [Nat.testBit_to_div_mod]
      have hsplit : 2 ^ k = 2 ^ i * 2 ^ (k - i) := by
        rw [← pow_add]
        congr 1
        omega
      have hdiv : 2 ^ k * a / 2 ^ i = 2 ^ (k - i) * a := by
        rw [hsplit, Nat.mul_assoc, Nat.mul_div_cancel_left _ (Nat.two_pow_pos i)]
      rw [hdiv]
      have heven : 2 ^ (k - i) * a = 2 * (2 ^ (k - i - 1) * a) := by
        rw [← Nat.mul_assoc, ← pow_succ']
        congr 2
        omega
      simp [heven, Nat.mul_mod_right]
    simp [Nat.testBit_xor, Nat.testBit_or, hlow]
  · have hhigh : b.testBit i = false :=
      Nat.testBit_lt_two_pow
        (lt_of_lt_of_le h (Nat.pow_le_pow_right (by norm_num) (by omega)))
    simp [Nat.testBit_xor, Nat.testBit_or, hhigh]

theorem polymodStep_small {s : Nat} (hs : s < 2 ^ 25) : polymodStep s = s * 32 := by
  unfold polymodStep
  have h25 : s >>> 25 = 0 := by
    rw [Nat.shiftRight_eq_div_pow]
    omega
  rw [h25]
  norm_num
  rw [show (0x1ffffff : Nat) = 2 ^ 25 - 1 from rfl, Nat.and_pow_two_sub_one_eq_mod,
    Nat.mod_eq_of_lt hs, shl5]

theorem polymodFold_digits (v0 v1 v2 v3 v4 v5 : Nat) (h0 : v0 < 32) (h1 : v1 < 32)
    (h2 : v2 < 32) (h3 : v3 < 32) (h4 : v4 < 32) (h5 : v5 < 32) :
    polymodFold 0 [v0, v1, v2, v3, v4, v5] =
      ((((v0 * 32 + v1) * 32 + v2) * 32 + v3) * 32 + v4) * 32 + v5 := by
  have e1 : polymodStep 0 ^^^ v0 = v0 := by
    rw [polymodStep_small (by norm_num)]
    simp
  have e2 : polymodStep v0 ^^^ v1 = v0 * 32 + v1 := by
    rw [polymodStep_small (by omega), xor_lit v0 5 32 rfl (by omega)]
  have e3 : polymodStep (v0 * 32 + v1) ^^^ v2 = (v0 * 32 + v1) * 32 + v2 := by
    rw [polymodStep_small (by omega), xor_lit _ 5 32 rfl (by omega)]
  have e4 : polymodStep ((v0 * 32 + v1) * 32 + v2) ^^^ v3 =
      ((v0 * 32 + v1) * 32 + v2) * 32 + v3 := by
    rw [polymodStep_small (by omega), xor_lit _ 5 32 rfl (by omega)]
  have e5 : polymodStep (((v0 * 32 + v1) * 32 + v2) * 32 + v3) ^^^ v4 =
      (((v0 * 32 + v1) * 32 + v2) * 32 + v3) * 32 + v4 := by
    rw [polymodStep_small (by omega), xor_lit _ 5 32 rfl (by omega)]
  have e6 : polymodStep ((((v0 * 32 + v1) * 32 + v2) * 32 + v3) * 32 + v4) ^^^ v5 =
      ((((v0 * 32 + v1) * 32 + v2) * 32 + v3) * 32 + v4) * 32 + v5 := by
    rw [polymodStep_small (by omega), xor_lit _ 5 32 rfl (by omega)]
  show polymodStep (polymodStep (polymodStep (polymodStep (polymodStep
    (polymodStep 0 ^^^ v0) ^^^ v1) ^^^ v2) ^^^ v3) ^^^ v4) ^^^ v5 = _
  rw [e1, e2, e3, e4, e5, e6]

theorem polymodFold_slices {x : Nat} (hx : x < 2 ^ 30) :
    polymodFold 0 [(x >>> 25) &&& 31, (x >>> 20) &&& 31, (x >>> 15) &&& 31,
      (x >>> 10) &&& 31, (x >>> 5) &&& 31, (x >>> 0) &&& 31] = x := by
  simp only [and31, Nat.shiftRight_eq_div_pow]
  rw [polymodFold_digits _ _ _ _ _ _ (Nat.mod_lt _ (by norm_num)) (Nat.mod_lt _ (by norm_num))
    (Nat.mod_lt _ (by norm_num)) (Nat.mod_lt _ (by norm_num)) (Nat.mod_lt _ (by norm_num))
    (Nat.mod_lt _ (by norm_num))]
  norm_num
  omega

/-! ## Claim C5: the bech32 checksum validates on encoded strings -/

theorem checksum_verify (chk0 : Nat) (words : List Nat) (hchk : chk0 < 2 ^ 30)
    (hw : ∀ w ∈ words, w < 32) :
    polymodFold chk0 (words ++
      ((List.range 6).map fun i =>
        ((polymodFold (polymodFold chk0 words) (List.replicate 6 0) ^^^ 1) >>>
          ((5 - i) * 5)) &&& 31)) = 1 := by
  set m := polymodFold chk0 words with hm
  set chk := polymodFold m (List.replicate 6 0) ^^^ 1 with hchkdef
  have hm30 : m < 2 ^ 30 :=
    polymodFold_lt words chk0 hchk fun w hw2 => lt_trans (hw w hw2) (by norm_num)
  have hz30 : polymodFold m (List.replicate 6 0) < 2 ^ 30 :=
    polymodFold_lt _ m hm30 (by simp)
  have hc30 : chk < 2 ^ 30 := Nat.xor_lt_two_pow hz30 (by norm_num)
  rw [polymodFold_append]
  have hcs : ((List.range 6).map fun i => (chk >>> ((5 - i) * 5)) &&& 31) =
      [(chk >>> 25) &&& 31, (chk >>> 20) &&& 31, (chk >>> 15) &&& 31, (chk >>> 10) &&& 31,
       (chk >>> 5) &&& 31, (chk >>> 0) &&& 31] := rfl
  rw [← hm, hcs]
  calc polymodFold m [(chk >>> 25) &&& 31, (chk >>> 20) &&& 31, (chk >>> 15) &&& 31,
        (chk >>> 10) &&& 31, (chk >>> 5) &&& 31, (chk >>> 0) &&& 31]
      = polymodFold (0 ^^^ m) [(chk >>> 25) &&& 31, (chk >>> 20) &&& 31, (chk >>> 15) &&& 31,
        (chk >>> 10) &&& 31, (chk >>> 5) &&& 31, (chk >>> 0) &&& 31] := by rw [Nat.zero_xor]
    _ = polymodFold 0 [(chk >>> 25) &&& 31, (chk >>> 20) &&& 31, (chk >>> 15) &&& 31,
        (chk >>> 10) &&& 31, (chk >>> 5) &&& 31, (chk >>> 0) &&& 31] ^^^
          polymodFold m (List.replicate 6 0) := polymodFold_xor _ 0 m
    _ = chk ^^^ polymodFold m (List.replicate 6 0) := by rw [polymodFold_slices hc30]
    _ = 1 := by
        rw [hchkdef, Nat.xor_comm (polymodFold m (List.replicate 6 0)) 1, Nat.xor_assoc,
          Nat.xor_self, Nat.xor_zero]

/-! ## Claim C5: encode/decode helper lemmas -/

theorem lowerChar_charsetChr : ∀ w : Nat, w < 32 → lowerChar (charsetChr w) = charsetChr w := by
  decide

theorem charsetChr_ne_1 : ∀ w : Nat, w < 32 → charsetChr w ≠ '1' := by
  decide

theorem charsetVal_charsetChr : ∀ w : Nat, w < 32 → charsetVal (charsetChr w) = some w := by
  decide

theorem foldlM_words (words : List Nat) : ∀ chk : Nat, (∀ w ∈ words, w < 32) →
    (words.foldlM
      (fun chk w =>
        if w >>> 5 ≠ 0 then Except.error "Non 5-bit word"
        else Except.ok (polymodStep chk ^^^ w))
      chk : Except String Nat) = .ok (polymodFold chk words) := by
  induction words with
  | nil => intro chk _; rfl
  | cons w ws ih =>
    intro chk h
    have hw5 : w >>> 5 = 0 := by
      rw [shr5]
      have := h w (by simp)
      omega
    simp only [List.foldlM_cons, hw5]
    simp only [ne_eq, not_true_eq_false, if_false, if_neg]
    show (ws.foldlM _ (polymodStep chk ^^^ w) : Except String Nat) = _
    exact ih _ fun x hx => h x (by simp [hx])

theorem mapM_charset (l : List Nat) (h : ∀ w ∈ l, w < 32) :
    ((l.map charsetChr).mapM fun c =>
      match charsetVal c with
      | none => Except.error "Unknown character"
      | some v => (Except.ok v : Except String Nat)) = .ok l := by
  induction l with
  | nil => rfl
  | cons w ws ih =>
    simp only [List.map_cons, List.mapM_cons, charsetVal_charsetChr w (h w (by simp))]
    rw [ih fun x hx => h x (by simp [hx])]
    rfl

theorem lastIndexOf1_none (l : List Char) (h : ∀ c ∈ l, c ≠ '1') : lastIndexOf1 l = none := by
  induction l with
  | nil => rfl
  | cons c cs ih =>
    simp only [lastIndexOf1, ih fun x hx => h x (by simp [hx])]
    simp [h c (by simp)]

theorem prefixChk_arcv : prefixChk ADDRESS_HRP = .ok 393488175 := rfl

theorem bech32Encode_arcv (words : List Nat) (hw : ∀ w ∈ words, w < 32)
    (hlen : words.length ≤ 79) :
    bech32Encode ADDRESS_HRP words =
      .ok (String.mk (ADDRESS_HRP ++ '1' :: words.map charsetChr ++
        ((List.range 6).map fun i =>
          ((polymodFold (polymodFold 393488175 words) (List.replicate 6 0) ^^^ 1) >>>
            ((5 - i) * 5)) &&& 31).map charsetChr)) := by
  unfold bech32Encode
  rw [if_neg (by simp [ADDRESS_HRP]; omega)]
  rw [show ADDRESS_HRP.map lowerChar = ADDRESS_HRP by decide]
  dsimp only
  rw [prefixChk_arcv, except_bind_ok, foldlM_words words 393488175 hw, except_bind_ok]

theorem map_lower_charset (l : List Nat) (hl : ∀ w ∈ l, w < 32) :
    (l.map charsetChr).map lowerChar = l.map charsetChr := by
  induction l with
  | nil => rfl
  | cons w ws ih =>
    simp only [List.map_cons, lowerChar_charsetChr w (hl w (by simp))]
    rw [ih fun x hx => hl x (by simp [hx])]

theorem lastIndexOf1_arcv (X : List Char) (h : ∀ c ∈ X, c ≠ '1') :
    lastIndexOf1 (ADDRESS_HRP ++ '1' :: X) = some 4 := by
  have hX := lastIndexOf1_none X h
  show lastIndexOf1 ('a' :: 'r' :: 'c' :: 'v' :: '1' :: X) = some 4
  simp +decide [lastIndexOf1, hX]

theorem bech32Decode_generic (ws2 cs2 : List Nat) (hw : ∀ w ∈ ws2, w < 32)
    (hcs : ∀ x ∈ cs2, x < 32) (hlen : ws2.length ≤ 79) (hcl : cs2.length = 6)
    (hchk : polymodFold 393488175 (ws2 ++ cs2) = 1) :
    bech32Decode (String.mk (ADDRESS_HRP ++ '1' :: ws2.map charsetChr ++ cs2.map charsetChr)) =
      .ok (ADDRESS_HRP, ws2) := by
  have hall : ∀ x ∈ ws2 ++ cs2, x < 32 := by
    intro x hx
    rcases List.mem_append.1 hx with h | h
    · exact hw x h
    · exact hcs x h
  have hno1 : ∀ c ∈ ws2.map charsetChr ++ cs2.map charsetChr, c ≠ '1' := by
    intro c hc
    rcases List.mem_append.1 hc with h | h <;>
      · rw [List.mem_map] at h
        obtain ⟨w, hwmem, rfl⟩ := h
        first
        | exact charsetChr_ne_1 w (hw w hwmem)
        | exact charsetChr_ne_1 w (hcs w hwmem)
  have hLlen : (ADDRESS_HRP ++ '1' :: ws2.map charsetChr ++ cs2.map charsetChr).length =
      ws2.length + 11 := by
    simp [ADDRESS_HRP, hcl]
  unfold bech32Decode
  have hdata : (String.mk (ADDRESS_HRP ++ '1' :: ws2.map charsetChr ++
      cs2.map charsetChr)).data = ADDRESS_HRP ++ '1' :: ws2.map charsetChr ++
      cs2.map charsetChr := rfl
  dsimp only
  rw [if_neg (by rw [hLlen]; omega), if_neg (by rw [hLlen]; omega)]
  have hlower : (ADDRESS_HRP ++ '1' :: ws2.map charsetChr ++ cs2.map charsetChr).map lowerChar =
      ADDRESS_HRP ++ '1' :: ws2.map charsetChr ++ cs2.map charsetChr := by
    simp only [List.map_append, List.map_cons]
    rw [map_lower_charset ws2 hw, map_lower_charset cs2 hcs,
      show ADDRESS_HRP.map lowerChar = ADDRESS_HRP by decide,
      show lowerChar '1' = '1' by decide]
  rw [hlower]
  rw [if_neg (by simp)]
  have hshape : ADDRESS_HRP ++ '1' :: ws2.map charsetChr ++ cs2.map charsetChr =
      ADDRESS_HRP ++ '1' :: (ws2.map charsetChr ++ cs2.map charsetChr) := by
    simp [List.append_assoc]
  rw [hshape, lastIndexOf1_arcv _ hno1]
  dsimp only
  rw [if_neg (by norm_num)]
  have htake : (ADDRESS_HRP ++ '1' :: (ws2.map charsetChr ++ cs2.map charsetChr)).take 4 =
      ADDRESS_HRP := rfl
  have hdrop : (ADDRESS_HRP ++ '1' :: (ws2.map charsetChr ++ cs2.map charsetChr)).drop 5 =
      ws2.map charsetChr ++ cs2.map charsetChr := rfl
  rw [htake, hdrop]
  rw [if_neg (by simp [hcl])]
  rw [prefixChk_arcv, except_bind_ok]
  rw [← List.map_append, mapM_charset _ hall, except_bind_ok]
  rw [if_neg (by rw [hchk]; simp)]
  have htk : (ws2 ++ cs2).take ((ws2 ++ cs2).length - 6) = ws2 := by
    have : (ws2 ++ cs2).length - 6 = ws2.length := by simp [hcl]
    rw [this]
    exact List.take_left ws2 cs2
  rw [htk]

/-! ## Claim C5 -/

theorem shl8 (a : Nat) : a <<< 8 = a * 256 := by rw [Nat.shiftLeft_eq]
theorem and255 (a : Nat) : a &&& 255 = a % 256 := Nat.and_pow_two_sub_one_eq_mod a 8

theorem jor256 (a b : Nat) (h : b < 256) : a * 256 ||| b = a * 256 + b :=
  lor_lit a 8 256 rfl h

theorem jor32 (a b : Nat) (h : b < 32) : a * 32 ||| b = a * 32 + b :=
  lor_lit a 5 32 rfl h

theorem conv85_chunk (v b0 b1 b2 b3 b4 : Nat) (rest : List Nat)
    (h0 : b0 < 256) (h1 : b1 < 256) (h2 : b2 < 256) (h3 : b3 < 256) (h4 : b4 < 256) :
    convertCore 8 5 (b0 :: b1 :: b2 :: b3 :: b4 :: rest) v 0 =
      (b0 / 8 :: (b0 % 8 * 4 + b1 / 64) :: (b1 / 2 % 32) :: (b1 % 2 * 16 + b2 / 16) ::
        (b2 % 16 * 2 + b3 / 128) :: (b3 / 4 % 32) :: (b3 % 4 * 8 + b4 / 32) :: (b4 % 32) ::
        (convertCore 8 5 rest (accJs 8 v [b0, b1, b2, b3, b4]) 0).1,
        (convertCore 8 5 rest (accJs 8 v [b0, b1, b2, b3, b4]) 0).2) := by
  simp only [convertCore, drain, accJs]
  norm_num [Nat.shiftLeft_eq, Nat.shiftRight_eq_div_pow]
  simp only [and31, jor256 _ _ h0, jor256 _ _ h1, jor256 _ _ h2, jor256 _ _ h3, jor256 _ _ h4]
  repeat' apply And.intro
  all_goals first | rfl | omega

set_option maxRecDepth 8000 in
set_option maxHeartbeats 2000000 in
theorem conv58_chunk (u w0 w1 w2 w3 w4 w5 w6 w7 : Nat) (ws : List Nat)
    (g0 : w0 < 32) (g1 : w1 < 32) (g2 : w2 < 32) (g3 : w3 < 32)
    (g4 : w4 < 32) (g5 : w5 < 32) (g6 : w6 < 32) (g7 : w7 < 32) :
    convertCore 5 8 (w0 :: w1 :: w2 :: w3 :: w4 :: w5 :: w6 :: w7 :: ws) u 0 =
      ((w0 * 8 + w1 / 4) :: (w1 % 4 * 64 + w2 * 2 + w3 / 16) :: (w3 % 16 * 16 + w4 / 2) ::
        (w4 % 2 * 128 + w5 * 4 + w6 / 8) :: (w6 % 8 * 32 + w7) ::
        (convertCore 5 8 ws (accJs 5 u [w0, w1, w2, w3, w4, w5, w6, w7]) 0).1,
        (convertCore 5 8 ws (accJs 5 u [w0, w1, w2, w3, w4, w5, w6, w7]) 0).2) := by
  simp only [convertCore, drain, accJs]
  norm_num [Nat.shiftLeft_eq, Nat.shiftRight_eq_div_pow]
  simp only [and255, jor32 _ _ g0, jor32 _ _ g1, jor32 _ _ g2, jor32 _ _ g3,
    jor32 _ _ g4, jor32 _ _ g5, jor32 _ _ g6, jor32 _ _ g7]
  repeat' apply And.intro
  all_goals first | rfl | omega

theorem conv_roundtrip : ∀ (n : Nat) (bytes : List Nat) (v : Nat),
    bytes.length = 5 * n → (∀ b ∈ bytes, b < 256) →
    ∃ ws vf, convertCore 8 5 bytes v 0 = (ws, vf, 0) ∧
      (∀ w ∈ ws, w < 32) ∧ ws.length = 8 * n ∧
      ∀ u, ∃ uf, convertCore 5 8 ws u 0 = (bytes, uf, 0) := by
  intro n
  induction n with
  | zero =>
    intro bytes v hlen _
    have hnil : bytes = [] := List.eq_nil_of_length_eq_zero (by omega)
    subst hnil
    exact ⟨[], v, rfl, by simp, by simp, fun u => ⟨u, rfl⟩⟩
  | succ n ih =>
    intro bytes v hlen hb
    rcases bytes with _ | ⟨b0, tl⟩
    · simp only [List.length_nil] at hlen; omega
    rcases tl with _ | ⟨b1, tl⟩
    · simp only [List.length_cons, List.length_nil] at hlen; omega
    rcases tl with _ | ⟨b2, tl⟩
    · simp only [List.length_cons, List.length_nil] at hlen; omega
    rcases tl with _ | ⟨b3, tl⟩
    · simp only [List.length_cons, List.length_nil] at hlen; omega
    rcases tl with _ | ⟨b4, rest⟩
    · simp only [List.length_cons, List.length_nil] at hlen; omega
    simp only [List.length_cons] at hlen
    have hrlen : rest.length = 5 * n := by omega
    have h0 : b0 < 256 := hb b0 (by simp)
    have h1 : b1 < 256 := hb b1 (by simp)
    have h2 : b2 < 256 := hb b2 (by simp)
    have h3 : b3 < 256 := hb b3 (by simp)
    have h4 : b4 < 256 := hb b4 (by simp)
    have hbr : ∀ b ∈ rest, b < 256 := fun b hm => hb b (by simp [hm])
    obtain ⟨ws2, vf2, hconv2, hw2, hlen2, hback2⟩ :=
      ih rest (accJs 8 v [b0, b1, b2, b3, b4]) hrlen hbr
    have hfw := conv85_chunk v b0 b1 b2 b3 b4 rest h0 h1 h2 h3 h4
    rw [hconv2] at hfw
    refine ⟨b0 / 8 :: (b0 % 8 * 4 + b1 / 64) :: (b1 / 2 % 32) :: (b1 % 2 * 16 + b2 / 16) ::
      (b2 % 16 * 2 + b3 / 128) :: (b3 / 4 % 32) :: (b3 % 4 * 8 + b4 / 32) :: (b4 % 32) :: ws2,
      vf2, hfw, ?_, ?_, ?_⟩
    · intro w hw
      simp only [List.mem_cons] at hw
      rcases hw with rfl | rfl | rfl | rfl | rfl | rfl | rfl | rfl | hw
      · omega
      · omega
      · omega
      · omega
      · omega
      · omega
      · omega
      · omega
      · exact hw2 w hw
    · simp only [List.length_cons, hlen2]; omega
    · intro u
      obtain ⟨uf, hbk⟩ := hback2 (accJs 5 u
        [b0 / 8, b0 % 8 * 4 + b1 / 64, b1 / 2 % 32, b1 % 2 * 16 + b2 / 16,
          b2 % 16 * 2 + b3 / 128, b3 / 4 % 32, b3 % 4 * 8 + b4 / 32, b4 % 32])
      have hck := conv58_chunk u (b0 / 8) (b0 % 8 * 4 + b1 / 64) (b1 / 2 % 32)
        (b1 % 2 * 16 + b2 / 16) (b2 % 16 * 2 + b3 / 128) (b3 / 4 % 32)
        (b3 % 4 * 8 + b4 / 32) (b4 % 32) ws2
        (by omega) (by omega) (by omega) (by omega) (by omega) (by omega) (by omega) (by omega)
      rw [hbk] at hck
      have e0 : b0 / 8 * 8 + (b0 % 8 * 4 + b1 / 64) / 4 = b0 := by omega
      have e1 : (b0 % 8 * 4 + b1 / 64) % 4 * 64 + b1 / 2 % 32 * 2 +
          (b1 % 2 * 16 + b2 / 16) / 16 = b1 := by omega
      have e2 : (b1 % 2 * 16 + b2 / 16) % 16 * 16 + (b2 % 16 * 2 + b3 / 128) / 2 = b2 := by
        omega
      have e3 : (b2 % 16 * 2 + b3 / 128) % 2 * 128 + b3 / 4 % 32 * 4 +
          (b3 % 4 * 8 + b4 / 32) / 8 = b3 := by omega
      have e4 : (b3 % 4 * 8 + b4 / 32) % 8 * 32 + b4 % 32 = b4 := by omega
      rw [e0, e1, e2, e3, e4] at hck
      exact ⟨uf, hck⟩

theorem words_roundtrip (bytes : Bytes) (n : Nat) (hlen : bytes.length = 5 * n)
    (hb : ∀ b ∈ bytes, b < 256) :
    ∃ ws, toWords bytes = .ok ws ∧ (∀ w ∈ ws, w < 32) ∧ ws.length = 8 * n ∧
      fromWords ws = .ok bytes := by
  obtain ⟨ws, vf, hconv, hw, hl, hback⟩ := conv_roundtrip n bytes 0 hlen hb
  obtain ⟨uf, hbk⟩ := hback 0
  refine ⟨ws, ?_, hw, hl, ?_⟩
  · simp only [toWords, convert, hconv]
    norm_num
  · simp only [fromWords, convert, hbk]
    norm_num [Nat.shiftLeft_eq, and255, Nat.mul_mod_left]

theorem pubKeyToAddress_ok (pk : Bytes) (hlen : pk.length = 32) (hb : ∀ b ∈ pk, b < 256) :
    ∃ addr : String, pubKeyToAddress pk = .ok addr ∧
      addr.data.take 4 = ['a', 'r', 'c', 'v'] ∧
      parseAddress addr = .ok (blake2b 20 pk) := by
  have h20 : (blake2b 20 pk).length = 20 := blake2b_length 20 pk (by norm_num)
  have hblt := blake2b_lt 20 pk
  obtain ⟨ws, htw, hw, hwl, hfw⟩ := words_roundtrip (blake2b 20 pk) 4 (by omega) hblt
  have henc := bech32Encode_arcv ws hw (by omega)
  set cs := (List.range 6).map
    (fun i => ((polymodFold (polymodFold 393488175 ws) (List.replicate 6 0) ^^^ 1) >>>
      ((5 - i) * 5)) &&& 31) with hcs
  have hcslt : ∀ x ∈ cs, x < 32 := by
    intro x hx
    rw [hcs] at hx
    simp only [List.mem_map, List.mem_range] at hx
    obtain ⟨i, _, rfl⟩ := hx
    rw [and31]
    omega
  have hchk : polymodFold 393488175 (ws ++ cs) = 1 :=
    checksum_verify 393488175 ws (by norm_num) hw
  have hdec := bech32Decode_generic ws cs hw hcslt (by omega) (by simp [hcs]) hchk
  refine ⟨String.mk (ADDRESS_HRP ++ '1' :: ws.map charsetChr ++ cs.map charsetChr), ?_, ?_, ?_⟩
  · simp only [pubKeyToAddress, if_neg (show ¬pk.length ≠ 32 by omega)]
    rw [htw, except_bind_ok, henc]
  · simp [ADDRESS_HRP]
  · simp only [parseAddress]
    rw [hdec, except_bind_ok]
    simp only [if_neg (show ¬ADDRESS_HRP ≠ ADDRESS_HRP by simp)]
    rw [hfw, except_bind_ok]
    simp only [if_neg (show ¬(blake2b 20 pk).length ≠ ADDRESS_DATA_LENGTH by
      simp [h20, ADDRESS_DATA_LENGTH])]

/-- C5: for every 32-byte public key the generated address starts with the
fixed prefix and parses back to the blake2b-160 digest of the key; the
generator rejects other key lengths, and the parser rejects a wrong
prefix and a wrong payload length. -/
theorem claim_C5 (pk : Bytes) :
    (pk.length = 32 → (∀ b ∈ pk, b < 256) →
      ∃ addr : String, pubKeyToAddress pk = .ok addr ∧
        addr.data.take 4 = ['a', 'r', 'c', 'v'] ∧
        parseAddress addr = .ok (blake2b 20 pk)) ∧
    (pk.length ≠ 32 → pubKeyToAddress pk = .error "Public key must be 32 bytes") ∧
    (∀ (addr : String) (hrp : List Char) (words : List Nat),
      bech32Decode addr = .ok (hrp, words) → hrp ≠ ADDRESS_HRP →
      parseAddress addr = .error "Invalid address prefix") ∧
    (∀ (addr : String) (hrp : List Char) (words : List Nat) (data : Bytes),
      bech32Decode addr = .ok (hrp, words) → hrp = ADDRESS_HRP →
      fromWords words = .ok data → data.length ≠ 20 →
      parseAddress addr = .error "Invalid address data length") := by
  refine ⟨fun hlen hb => pubKeyToAddress_ok pk hlen hb, fun h => ?_, ?_, ?_⟩
  · simp only [pubKeyToAddress, if_pos h]
  · intro addr hrp words hdec hne
    simp only [parseAddress]
    rw [hdec, except_bind_ok]
    simp only [if_pos hne]
  · intro addr hrp words data hdec hhrp hfw hne
    subst hhrp
    simp only [parseAddress]
    rw [hdec, except_bind_ok]
    simp only [if_neg (show ¬ADDRESS_HRP ≠ ADDRESS_HRP by simp)]
    rw [hfw, except_bind_ok]
    simp only [ADDRESS_DATA_LENGTH, if_pos hne]

set_option maxRecDepth 40000 in
/-- Witness for C5: the round-trip instantiated at a concrete 32-byte
key, the length error at a 31-byte key, and the two parser rejections at
concrete addresses. -/
theorem claim_C5_witness :
    (∃ addr : String, pubKeyToAddress (List.replicate 32 7) = .ok addr ∧
      addr.data.take 4 = ['a', 'r', 'c', 'v'] ∧
      parseAddress addr = .ok (blake2b 20 (List.replicate 32 7))) ∧
    pubKeyToAddress (List.replicate 31 7) = .error "Public key must be 32 bytes" ∧
    parseAddress "xy1qpzry967vkz2" = .error "Invalid address prefix" ∧
    parseAddress "arcv1qvpsxqcrqvpsxqcrr475kp" = .error "Invalid address data length" :=
  ⟨(claim_C5 (List.replicate 32 7)).1 (by simp) (by decide),
   (claim_C5 (List.replicate 31 7)).2.1 (by simp),
   (claim_C5 []).2.2.1 "xy1qpzry967vkz2" ['x', 'y'] [0, 1, 2, 3, 4, 5] rfl (by decide),
   (claim_C5 []).2.2.2 "arcv1qvpsxqcrqvpsxqcrr475kp" ADDRESS_HRP
     [0, 12, 1, 16, 6, 0, 24, 3, 0, 12, 1, 16, 6, 0, 24, 3] (List.replicate 10 3) rfl rfl rfl
     (by decide)⟩

end Archivas
